import Mathlib

/-!
# Verification of the usec-timelines timeline layout engine

This file shallowly embeds the timeline layout engine of `src/code.js`
(the current renderer: `parseDate`, `diffDays`, `calculateTimelineDateRange`,
`calculateSvgDimensions`, `calculateConferenceLayouts`, the segment loop of
`renderConferenceCycles`, and `sortConferenceDataDates`) and proves or refutes
the specification claims about it.

Modelling conventions:
* JS `Date` values are UTC timestamps in milliseconds, represented as `Int`.
  An *invalid* date (JS `Invalid Date`, internal value `NaN`) is `none` in
  `Option Int`.  All date values produced by `parseDate` sit at UTC midnight.
* The UTC calendar (`Date.UTC`, `getUTCMonth`, `setUTCMonth`, `setUTCDate`)
  follows the ECMAScript specification: `DayFromYear` is the standard closed
  formula and `YearFromTime`/`MonthFromTime` are the spec's search for the
  enclosing year/month, realised here as a fuel-bounded scan that is proved
  correct.  Month arguments are 0-based and normalise by floored div/mod 12,
  exactly as `MakeDay` prescribes.
* JS numbers occurring in layout arithmetic are modelled as `ℚ`; `NaN` is
  `none` in `Option ℚ`, and comparisons involving `NaN` are `false`, as in JS.
  Division by a zero `totalTimelineDays` (which JS would turn into
  `Infinity`/`NaN`) is not modelled; every theorem below that divides assumes
  `totalTimelineDays > 0`, matching the pipeline's non-degenerate runs.
* JS strings are modelled as `List Char` (the dataset tokens are ASCII).
-/

/-! ## The ECMAScript UTC calendar -/

/-- Gregorian leap-year test, as in ECMAScript `DaysInYear`. -/
def isLeapYear (y : Int) : Bool :=
  (y % 4 == 0 && y % 100 != 0) || y % 400 == 0

/-- Number of days in year `y`. -/
def daysInYear (y : Int) : Int :=
  if isLeapYear y then 366 else 365

/-- ECMAScript `DayFromYear`: day number of January 1 of year `y`
(day 0 = 1970-01-01).  `/` on `Int` is Euclidean division, which for the
positive divisors used here coincides with the `floor` of the ECMAScript
formula. -/
def dayFromYear (y : Int) : Int :=
  365 * (y - 1970) + (y - 1969) / 4 - (y - 1901) / 100 + (y - 1601) / 400

theorem dayFromYear_succ (y : Int) :
    dayFromYear (y + 1) = dayFromYear y + daysInYear y := by
  simp only [dayFromYear, daysInYear, isLeapYear, Bool.or_eq_true, Bool.and_eq_true,
    beq_iff_eq, bne_iff_ne, ne_eq]
  split <;> omega

theorem dayFromYear_era (e : Int) :
    dayFromYear (1970 + 400 * e) = 146097 * e := by
  simp only [dayFromYear]
  omega

/-- Scan forward at most `fuel` years to locate the year containing a day
offset `rem` from January 1 of year `y` (the ECMAScript `YearFromTime`
search). -/
def yearScan : Nat → Int → Int → Int × Int
  | 0, y, rem => (y, rem)
  | f + 1, y, rem =>
    if rem < daysInYear y then (y, rem) else yearScan f (y + 1) (rem - daysInYear y)

/-- `YearFromTime` on day numbers: returns the year and the day-within-year. -/
def yearFromDay (z : Int) : Int × Int :=
  yearScan 400 (1970 + 400 * (z / 146097)) (z % 146097)

theorem yearScan_correct : ∀ (f : Nat) (y rem : Int), 0 ≤ rem →
    rem < dayFromYear (y + f) - dayFromYear y →
    dayFromYear (yearScan f y rem).1 + (yearScan f y rem).2 = dayFromYear y + rem ∧
      0 ≤ (yearScan f y rem).2 ∧ (yearScan f y rem).2 < daysInYear (yearScan f y rem).1 := by
  intro f
  induction f with
  | zero =>
    intro y rem h0 hlt
    simp only [Nat.cast_zero, add_zero] at hlt
    omega
  | succ f ih =>
    intro y rem h0 hlt
    by_cases h : rem < daysInYear y
    · simp only [yearScan, if_pos h]
      exact ⟨trivial, h0, h⟩
    · simp only [yearScan, if_neg h]
      have hs := dayFromYear_succ y
      have hcast : y + ((f : Int) + 1) = (y + 1) + (f : Int) := by ring
      have hlt' : rem - daysInYear y <
          dayFromYear ((y + 1) + (f : Int)) - dayFromYear (y + 1) := by
        rw [← hcast]
        push_cast at hlt ⊢
        omega
      have h3 := ih (y + 1) (rem - daysInYear y) (by omega) hlt'
      refine ⟨?_, h3.2.1, h3.2.2⟩
      rw [h3.1, dayFromYear_succ y]
      ring

theorem yearFromDay_correct (z : Int) :
    dayFromYear (yearFromDay z).1 + (yearFromDay z).2 = z ∧
      0 ≤ (yearFromDay z).2 ∧ (yearFromDay z).2 < daysInYear (yearFromDay z).1 := by
  have h0 : (0 : Int) ≤ z % 146097 := Int.emod_nonneg z (by norm_num)
  have h1 : z % 146097 < 146097 := Int.emod_lt_of_pos z (by norm_num)
  have hera : dayFromYear (1970 + 400 * (z / 146097) + (400 : Nat)) -
      dayFromYear (1970 + 400 * (z / 146097)) = 146097 := by
    push_cast
    have e1 := dayFromYear_era (z / 146097)
    have e2 := dayFromYear_era (z / 146097 + 1)
    have : (1970 : Int) + 400 * (z / 146097) + 400 = 1970 + 400 * (z / 146097 + 1) := by ring
    rw [this, e1, e2]
    ring
  have hc := yearScan_correct 400 (1970 + 400 * (z / 146097)) (z % 146097) h0 (by omega)
  have hbase : dayFromYear (1970 + 400 * (z / 146097)) = 146097 * (z / 146097) :=
    dayFromYear_era _
  refine ⟨?_, hc.2.1, hc.2.2⟩
  have : dayFromYear (yearFromDay z).1 + (yearFromDay z).2 =
      dayFromYear (1970 + 400 * (z / 146097)) + z % 146097 := hc.1
  rw [this, hbase]
  omega

/-- Days in the 0-based month `m` of a year with leap flag `lp`. -/
def daysInMonthN (lp : Bool) : Nat → Int
  | 0 => 31
  | 1 => if lp then 29 else 28
  | 2 => 31
  | 3 => 30
  | 4 => 31
  | 5 => 30
  | 6 => 31
  | 7 => 31
  | 8 => 30
  | 9 => 31
  | 10 => 30
  | _ => 31

/-- Cumulative day count before 0-based month `m` (ECMAScript `DayWithinYear`
month boundaries). -/
def cumMonth (lp : Bool) : Nat → Int
  | 0 => 0
  | m + 1 => cumMonth lp m + daysInMonthN lp m

theorem cumMonth_twelve (lp : Bool) : cumMonth lp 12 = if lp then 366 else 365 := by
  cases lp <;> decide

theorem cumMonth_eleven (lp : Bool) : cumMonth lp 11 = if lp then 335 else 334 := by
  cases lp <;> decide

theorem daysInMonthN_pos (lp : Bool) (m : Nat) : 28 ≤ daysInMonthN lp m := by
  match m with
  | 0 | 2 | 3 | 4 | 5 | 6 | 7 | 8 | 9 | 10 => cases lp <;> decide
  | 1 => cases lp <;> decide
  | n + 11 => simp [daysInMonthN]

theorem daysInMonthN_le (lp : Bool) (m : Nat) : daysInMonthN lp m ≤ 31 := by
  match m with
  | 0 | 2 | 3 | 4 | 5 | 6 | 7 | 8 | 9 | 10 => cases lp <;> decide
  | 1 => cases lp <;> decide
  | n + 11 => simp [daysInMonthN]

/-- Scan forward at most `fuel` months to locate the month containing day
offset `rem` within a year (the ECMAScript `MonthFromTime` search). -/
def monthScan : Nat → Bool → Nat → Int → Nat × Int
  | 0, _, m, rem => (m, rem)
  | f + 1, lp, m, rem =>
    if rem < daysInMonthN lp m then (m, rem)
    else monthScan f lp (m + 1) (rem - daysInMonthN lp m)

theorem monthScan_correct : ∀ (f : Nat) (lp : Bool) (m : Nat) (rem : Int), 0 ≤ rem →
    rem < cumMonth lp (m + f) - cumMonth lp m →
    cumMonth lp (monthScan f lp m rem).1 + (monthScan f lp m rem).2 = cumMonth lp m + rem ∧
      0 ≤ (monthScan f lp m rem).2 ∧
      (monthScan f lp m rem).2 < daysInMonthN lp (monthScan f lp m rem).1 ∧
      (monthScan f lp m rem).1 < m + f ∧ m ≤ (monthScan f lp m rem).1 := by
  intro f
  induction f with
  | zero =>
    intro lp m rem h0 hlt
    simp only [Nat.add_zero] at hlt
    omega
  | succ f ih =>
    intro lp m rem h0 hlt
    by_cases h : rem < daysInMonthN lp m
    · simp only [monthScan, if_pos h]
      exact ⟨trivial, h0, h, by omega, le_refl m⟩
    · simp only [monthScan, if_neg h]
      have hstep : cumMonth lp (m + 1) = cumMonth lp m + daysInMonthN lp m := rfl
      have hlt' : rem - daysInMonthN lp m < cumMonth lp ((m + 1) + f) - cumMonth lp (m + 1) := by
        have harr : (m + 1) + f = m + (f + 1) := by omega
        rw [harr, hstep]
        omega
      have h3 := ih lp (m + 1) (rem - daysInMonthN lp m) (by omega) hlt'
      refine ⟨?_, h3.2.1, h3.2.2.1, by omega, by omega⟩
      rw [h3.1, hstep]
      ring

/-- ECMAScript time-value decomposition into UTC (year, 0-based month,
1-based day-of-month), on day numbers. -/
def civilFromDay (z : Int) : Int × Nat × Int :=
  let p := yearFromDay z
  let q := monthScan 12 (isLeapYear p.1) 0 p.2
  (p.1, q.1, q.2 + 1)

/-- ECMAScript `MakeDay y m d` (month 0-based and arbitrary, day arbitrary):
day number of the normalised calendar point. -/
def makeDay (y m d : Int) : Int :=
  dayFromYear (y + m / 12) +
    cumMonth (isLeapYear (y + m / 12)) (m % 12).toNat + (d - 1)

/-- Day number of the first day of the month with absolute month index `M`
(month index = 12·year + 0-based month). -/
def firstDayM (M : Int) : Int :=
  dayFromYear (M / 12) + cumMonth (isLeapYear (M / 12)) (M % 12).toNat

theorem makeDay_eq_firstDayM (y m d : Int) :
    makeDay y m d = firstDayM (12 * y + m) + (d - 1) := by
  have h1 : (12 * y + m) / 12 = y + m / 12 := by omega
  have h2 : (12 * y + m) % 12 = m % 12 := by omega
  simp only [makeDay, firstDayM, h1, h2]

theorem daysInYear_cum (y : Int) :
    daysInYear y = cumMonth (isLeapYear y) 12 := by
  rw [cumMonth_twelve]
  simp only [daysInYear]

theorem firstDayM_step (M : Int) :
    firstDayM (M + 1) - firstDayM M =
      daysInMonthN (isLeapYear (M / 12)) (M % 12).toNat := by
  have hm0 : 0 ≤ M % 12 := Int.emod_nonneg M (by norm_num)
  have hm1 : M % 12 < 12 := Int.emod_lt_of_pos M (by norm_num)
  by_cases h : M % 12 = 11
  · have hd : (M + 1) / 12 = M / 12 + 1 := by omega
    have hr : (M + 1) % 12 = 0 := by omega
    have hk : (M % 12).toNat = 11 := by omega
    have e1 : firstDayM (M + 1) = dayFromYear (M / 12 + 1) := by
      simp only [firstDayM, hd, hr, Int.toNat_zero]
      simp [cumMonth]
    have e2 : firstDayM M = dayFromYear (M / 12) + cumMonth (isLeapYear (M / 12)) 11 := by
      simp only [firstDayM, hk]
    have e3 : daysInMonthN (isLeapYear (M / 12)) (M % 12).toNat = 31 := by
      rw [hk]
      rfl
    rw [e1, e2, e3, dayFromYear_succ]
    have h12 : daysInYear (M / 12) = cumMonth (isLeapYear (M / 12)) 11 + 31 := by
      rw [daysInYear_cum]
      rfl
    omega
  · have hd : (M + 1) / 12 = M / 12 := by omega
    have hr : (M + 1) % 12 = M % 12 + 1 := by omega
    have hk : ((M + 1) % 12).toNat = (M % 12).toNat + 1 := by omega
    simp only [firstDayM, hd, hk]
    have : cumMonth (isLeapYear (M / 12)) ((M % 12).toNat + 1) =
        cumMonth (isLeapYear (M / 12)) (M % 12).toNat +
          daysInMonthN (isLeapYear (M / 12)) (M % 12).toNat := rfl
    rw [this]
    ring

theorem firstDayM_step_ge (M : Int) : firstDayM M + 28 ≤ firstDayM (M + 1) := by
  have h := firstDayM_step M
  have := daysInMonthN_pos (isLeapYear (M / 12)) (M % 12).toNat
  omega

theorem firstDayM_step_le (M : Int) : firstDayM (M + 1) ≤ firstDayM M + 31 := by
  have h := firstDayM_step M
  have := daysInMonthN_le (isLeapYear (M / 12)) (M % 12).toNat
  omega

theorem firstDayM_mono_nat : ∀ (k : Nat) (M : Int), firstDayM M ≤ firstDayM (M + k) := by
  intro k
  induction k with
  | zero => intro M; simp
  | succ k ih =>
    intro M
    have h1 := ih M
    have h2 := firstDayM_step_ge (M + k)
    have : M + (k + 1 : Nat) = (M + k) + 1 := by push_cast; ring
    rw [this]
    omega

theorem firstDayM_mono {M N : Int} (h : M ≤ N) : firstDayM M ≤ firstDayM N := by
  have hk : N = M + ((N - M).toNat : Int) := by omega
  rw [hk]
  exact firstDayM_mono_nat (N - M).toNat M

theorem firstDayM_strict_mono {M N : Int} (h : M < N) : firstDayM M < firstDayM N := by
  have h1 := firstDayM_step_ge M
  have h2 := firstDayM_mono (show M + 1 ≤ N by omega)
  omega

/-- Correctness of the ECMAScript time decomposition: `civilFromDay z` names
the calendar month that really contains day `z`, with a 1-based day-of-month
within the month's length. -/
theorem civilFromDay_spec (z : Int) :
    firstDayM (12 * (civilFromDay z).1 + ((civilFromDay z).2.1 : Int)) +
        ((civilFromDay z).2.2 - 1) = z ∧
      1 ≤ (civilFromDay z).2.2 ∧
      (civilFromDay z).2.2 ≤
        firstDayM (12 * (civilFromDay z).1 + ((civilFromDay z).2.1 : Int) + 1) -
          firstDayM (12 * (civilFromDay z).1 + ((civilFromDay z).2.1 : Int)) ∧
      (civilFromDay z).2.1 < 12 := by
  obtain ⟨hy, hr0, hr1⟩ := yearFromDay_correct z
  set y := (yearFromDay z).1 with hy'
  set r := (yearFromDay z).2 with hr'
  have hc0 : cumMonth (isLeapYear y) 0 = 0 := rfl
  have hcum : r < cumMonth (isLeapYear y) (0 + 12) - cumMonth (isLeapYear y) 0 := by
    have h12 := daysInYear_cum y
    rw [Nat.zero_add, hc0]
    omega
  obtain ⟨hm, hs0, hs1, hm12, _⟩ := monthScan_correct 12 (isLeapYear y) 0 r hr0 hcum
  set m := (monthScan 12 (isLeapYear y) 0 r).1 with hm'
  set r2 := (monthScan 12 (isLeapYear y) 0 r).2 with hr2'
  have hcm : civilFromDay z = (y, m, r2 + 1) := rfl
  have hmd : (12 * y + (m : Int)) / 12 = y := by omega
  have hmm : ((12 * y + (m : Int)) % 12).toNat = m := by omega
  have hfd : firstDayM (12 * y + (m : Int)) = dayFromYear y + cumMonth (isLeapYear y) m := by
    simp only [firstDayM, hmd, hmm]
  have hstep := firstDayM_step (12 * y + (m : Int))
  rw [hmd, hmm] at hstep
  rw [hcm]
  simp only
  refine ⟨?_, by omega, by omega, hm12⟩
  rw [hfd]
  rw [hc0] at hm
  omega

/-- A day number lying in month `M`'s range is decomposed with month index
`M` and the matching day-of-month. -/
theorem civilFromDay_unique (z M : Int) (h1 : firstDayM M ≤ z) (h2 : z < firstDayM (M + 1)) :
    12 * (civilFromDay z).1 + ((civilFromDay z).2.1 : Int) = M ∧
      (civilFromDay z).2.2 = z - firstDayM M + 1 := by
  obtain ⟨hz, hd1, hd2, _⟩ := civilFromDay_spec z
  set M0 := 12 * (civilFromDay z).1 + ((civilFromDay z).2.1 : Int) with hM0
  have hMeq : M0 = M := by
    by_contra hne
    rcases lt_or_gt_of_ne hne with hlt | hgt
    · have := firstDayM_mono (show M0 + 1 ≤ M by omega)
      omega
    · have := firstDayM_mono (show M + 1 ≤ M0 by omega)
      omega
  constructor
  · exact hMeq
  · rw [hMeq] at hz
    omega

/-! ## JS `Date` operations on millisecond timestamps -/

/-- Milliseconds per day. -/
def msPerDay : Int := 86400000

/-- ECMAScript `Day(t)` (floor of `t / msPerDay`). -/
def jsDay (t : Int) : Int := t / msPerDay

/-- ECMAScript `MonthFromTime`, 0-based. -/
def jsGetUTCMonth (t : Int) : Int := ((civilFromDay (jsDay t)).2.1 : Int)

/-- `Date.prototype.setUTCMonth(t, M)`: keep the UTC year and day-of-month,
replace the (arbitrary, normalising) 0-based month, keep the time of day. -/
def jsSetUTCMonth (t M : Int) : Int :=
  let c := civilFromDay (jsDay t)
  makeDay c.1 M c.2.2 * msPerDay + t % msPerDay

/-- `Date.prototype.setUTCDate(t, d)`: keep year and month, replace the
(arbitrary, normalising) day-of-month, keep the time of day. -/
def jsSetUTCDate (t d : Int) : Int :=
  let c := civilFromDay (jsDay t)
  makeDay c.1 (c.2.1 : Int) d * msPerDay + t % msPerDay

/-- `Math.round`: floor of `x + 1/2`.  Implemented by numerator/denominator
division so that concrete instances reduce inside `decide`; see
`jsRound_eq_floor`. -/
def jsRound (q : ℚ) : Int := (q + 1 / 2).num / ((q + 1 / 2).den : Int)

theorem jsRound_eq_floor (q : ℚ) : jsRound q = ⌊q + 1 / 2⌋ :=
  Rat.floor_def.symm

/-- `diffDays` from `src/code.js`: rounded millisecond difference over one
day's worth of milliseconds. -/
def diffDays (date1 date2 : Int) : Int :=
  jsRound (((date2 - date1 : Int) : ℚ) / 86400000)

theorem jsRound_intCast (k : Int) : jsRound (k : ℚ) = k := by
  rw [jsRound_eq_floor, Int.floor_eq_iff]
  constructor
  · linarith
  · have : ((k : ℚ) + 1 / 2) < (k : ℚ) + 1 := by linarith
    simpa using this

/-- For midnight-aligned timestamps the rounded day difference is the exact
difference of day numbers. -/
theorem diffDays_midnight (t1 t2 : Int) (h1 : t1 % msPerDay = 0) (h2 : t2 % msPerDay = 0) :
    diffDays t1 t2 = t2 / msPerDay - t1 / msPerDay := by
  have hk : t2 - t1 = msPerDay * (t2 / msPerDay - t1 / msPerDay) := by
    simp only [msPerDay] at *
    omega
  rw [diffDays, hk]
  have : ((msPerDay * (t2 / msPerDay - t1 / msPerDay) : Int) : ℚ) / 86400000 =
      ((t2 / msPerDay - t1 / msPerDay : Int) : ℚ) := by
    simp only [msPerDay]
    push_cast
    ring
  rw [this, jsRound_intCast]

theorem jsSetUTCMonth_mod (t M : Int) (h : t % msPerDay = 0) :
    jsSetUTCMonth t M % msPerDay = 0 := by
  simp only [jsSetUTCMonth, h, add_zero, Int.mul_emod_left]

theorem jsSetUTCDate_mod (t d : Int) (h : t % msPerDay = 0) :
    jsSetUTCDate t d % msPerDay = 0 := by
  simp only [jsSetUTCDate, h, add_zero, Int.mul_emod_left]

theorem jsDay_of_midnight_mul (a : Int) : jsDay (a * msPerDay) = a := by
  simp only [jsDay, msPerDay]
  omega

/-- Adding `k ≥ 1` months with `setUTCMonth` strictly increases the
timestamp. -/
theorem jsSetUTCMonth_add_lt (t k : Int) (hk : 1 ≤ k) :
    t < jsSetUTCMonth t (jsGetUTCMonth t + k) := by
  obtain ⟨hz, hd1, hd2, _⟩ := civilFromDay_spec (jsDay t)
  set y := (civilFromDay (jsDay t)).1
  set m := (civilFromDay (jsDay t)).2.1
  set d := (civilFromDay (jsDay t)).2.2
  have hmk : makeDay y ((m : Int) + k) d = firstDayM (12 * y + (m : Int) + k) + (d - 1) := by
    rw [makeDay_eq_firstDayM]
    ring_nf
  have hmono : firstDayM (12 * y + (m : Int)) < firstDayM (12 * y + (m : Int) + k) :=
    firstDayM_strict_mono (by omega)
  have ht : t = jsDay t * msPerDay + t % msPerDay := by
    simp only [jsDay, msPerDay] at *
    omega
  have hnew : jsSetUTCMonth t (jsGetUTCMonth t + k) =
      (firstDayM (12 * y + (m : Int) + k) + (d - 1)) * msPerDay + t % msPerDay := by
    simp only [jsSetUTCMonth, jsGetUTCMonth]
    rw [hmk]
  rw [hnew]
  have hdaylt : jsDay t < firstDayM (12 * y + (m : Int) + k) + (d - 1) := by omega
  have := mul_lt_mul_of_pos_right hdaylt (show (0 : Int) < msPerDay by norm_num [msPerDay])
  omega

theorem jsSetUTCMonth_shift (t δ : Int) (h : t % msPerDay = 0) :
    jsSetUTCMonth t (jsGetUTCMonth t + δ) =
      (firstDayM (12 * (civilFromDay (jsDay t)).1 + ((civilFromDay (jsDay t)).2.1 : Int) + δ) +
        ((civilFromDay (jsDay t)).2.2 - 1)) * msPerDay := by
  simp only [jsSetUTCMonth, jsGetUTCMonth, h, add_zero]
  rw [makeDay_eq_firstDayM]
  ring_nf

theorem jsSetUTCDate_one (a : Int) :
    jsSetUTCDate (a * msPerDay) 1 =
      firstDayM (12 * (civilFromDay a).1 + ((civilFromDay a).2.1 : Int)) * msPerDay := by
  simp only [jsSetUTCDate, jsDay_of_midnight_mul, Int.mul_emod_left, add_zero]
  rw [makeDay_eq_firstDayM]
  ring_nf

/-- The `src/code.js` min-side padding (`setUTCMonth(getUTCMonth() - 1)` then
`setUTCDate(1)`) lands strictly before the original midnight date. -/
theorem padMin_lt (t : Int) (ht : t % msPerDay = 0) :
    jsSetUTCDate (jsSetUTCMonth t (jsGetUTCMonth t - 1)) 1 < t := by
  obtain ⟨hz, hd1, hd2, _⟩ := civilFromDay_spec (jsDay t)
  set y := (civilFromDay (jsDay t)).1
  set m := (civilFromDay (jsDay t)).2.1
  set d := (civilFromDay (jsDay t)).2.2
  set M0 : Int := 12 * y + (m : Int) with hM0
  have hshift : jsSetUTCMonth t (jsGetUTCMonth t - 1) =
      (firstDayM (M0 - 1) + (d - 1)) * msPerDay := by
    have := jsSetUTCMonth_shift t (-1) ht
    rw [sub_eq_add_neg]
    rw [this]
    ring_nf
  set z1 : Int := firstDayM (M0 - 1) + (d - 1) with hz1
  have hstep1 : firstDayM (M0 - 1) + 28 ≤ firstDayM M0 := by
    have := firstDayM_step_ge (M0 - 1)
    have he : M0 - 1 + 1 = M0 := by ring
    rw [he] at this
    exact this
  have hlen0 : firstDayM (M0 + 1) ≤ firstDayM M0 + 31 := firstDayM_step_le M0
  have ht0 : t = jsDay t * msPerDay := by
    simp only [jsDay, msPerDay] at *
    omega
  have hkey : jsSetUTCDate (jsSetUTCMonth t (jsGetUTCMonth t - 1)) 1 =
      firstDayM (12 * (civilFromDay z1).1 + ((civilFromDay z1).2.1 : Int)) * msPerDay := by
    rw [hshift, jsSetUTCDate_one]
  by_cases hA : d - 1 < firstDayM M0 - firstDayM (M0 - 1)
  · have huniq := civilFromDay_unique z1 (M0 - 1) (by omega)
      (by
        have he : M0 - 1 + 1 = M0 := by ring
        rw [he]
        omega)
    rw [hkey, huniq.1]
    have hlt : firstDayM (M0 - 1) < jsDay t := by omega
    have := mul_lt_mul_of_pos_right hlt (show (0 : Int) < msPerDay by norm_num [msPerDay])
    omega
  · have hoff : firstDayM M0 ≤ z1 := by omega
    have hoff2 : z1 < firstDayM (M0 + 1) := by omega
    have huniq := civilFromDay_unique z1 M0 hoff hoff2
    rw [hkey, huniq.1]
    have hlt : firstDayM M0 < jsDay t := by omega
    have := mul_lt_mul_of_pos_right hlt (show (0 : Int) < msPerDay by norm_num [msPerDay])
    omega

/-- The `src/code.js` max-side padding (`setUTCMonth(getUTCMonth() + 1)` then
`setUTCDate(1)`) lands strictly after the original midnight date. -/
theorem padMax_gt (t : Int) (ht : t % msPerDay = 0) :
    t < jsSetUTCDate (jsSetUTCMonth t (jsGetUTCMonth t + 1)) 1 := by
  obtain ⟨hz, hd1, hd2, _⟩ := civilFromDay_spec (jsDay t)
  set y := (civilFromDay (jsDay t)).1
  set m := (civilFromDay (jsDay t)).2.1
  set d := (civilFromDay (jsDay t)).2.2
  set M0 : Int := 12 * y + (m : Int) with hM0
  have hshift : jsSetUTCMonth t (jsGetUTCMonth t + 1) =
      (firstDayM (M0 + 1) + (d - 1)) * msPerDay := jsSetUTCMonth_shift t 1 ht
  set z1 : Int := firstDayM (M0 + 1) + (d - 1) with hz1
  have hstep1 : firstDayM (M0 + 1) + 28 ≤ firstDayM (M0 + 2) := by
    have := firstDayM_step_ge (M0 + 1)
    have he : M0 + 1 + 1 = M0 + 2 := by ring
    rw [he] at this
    exact this
  have hlen0 : firstDayM (M0 + 1) ≤ firstDayM M0 + 31 := firstDayM_step_le M0
  have ht0 : t = jsDay t * msPerDay := by
    simp only [jsDay, msPerDay] at *
    omega
  have hkey : jsSetUTCDate (jsSetUTCMonth t (jsGetUTCMonth t + 1)) 1 =
      firstDayM (12 * (civilFromDay z1).1 + ((civilFromDay z1).2.1 : Int)) * msPerDay := by
    rw [hshift, jsSetUTCDate_one]
  by_cases hA : d - 1 < firstDayM (M0 + 2) - firstDayM (M0 + 1)
  · have huniq := civilFromDay_unique z1 (M0 + 1) (by omega)
      (by
        have he : M0 + 1 + 1 = M0 + 2 := by ring
        rw [he]
        omega)
    rw [hkey, huniq.1]
    have hlt : jsDay t < firstDayM (M0 + 1) := by omega
    have := mul_lt_mul_of_pos_right hlt (show (0 : Int) < msPerDay by norm_num [msPerDay])
    omega
  · have hoff : firstDayM (M0 + 2) ≤ z1 := by omega
    have hlen2 : firstDayM (M0 + 3) ≤ firstDayM (M0 + 2) + 31 := by
      have := firstDayM_step_le (M0 + 2)
      have he : M0 + 2 + 1 = M0 + 3 := by ring
      rw [he] at this
      exact this
    have hstep2 : firstDayM (M0 + 2) + 28 ≤ firstDayM (M0 + 3) := by
      have := firstDayM_step_ge (M0 + 2)
      have he : M0 + 2 + 1 = M0 + 3 := by ring
      rw [he] at this
      exact this
    have hoff2 : z1 < firstDayM (M0 + 2 + 1) := by
      have he : M0 + 2 + 1 = M0 + 3 := by ring
      rw [he]
      omega
    have huniq := civilFromDay_unique z1 (M0 + 2) hoff hoff2
    rw [hkey, huniq.1]
    have hlt : jsDay t < firstDayM (M0 + 2) := by omega
    have := mul_lt_mul_of_pos_right hlt (show (0 : Int) < msPerDay by norm_num [msPerDay])
    omega

/-! ## JS strings, `parseInt`, and `parseDate` from `src/code.js` -/

/-- ASCII digit test. -/
def isDigitCh (c : Char) : Bool := '0' ≤ c && c ≤ '9'

/-- Decimal value of a digit string. -/
def digitsToNat (l : List Char) : Nat :=
  l.foldl (fun a c => a * 10 + (c.toNat - 48)) 0

/-- Radix-10 digit-prefix parse: `NaN` (`none`) when no leading digit. -/
def parseDigitPrefix (l : List Char) : Option Int :=
  let ds := l.takeWhile isDigitCh
  if ds.isEmpty then none else some (digitsToNat ds)

/-- JS `parseInt(s)` (radix 10) on an ASCII string: optional sign, then the
longest digit prefix; `NaN` when no digits follow.  (Leading whitespace,
which never occurs in the dataset tokens, is not modelled.) -/
def jsParseIntChars (l : List Char) : Option Int :=
  match l with
  | [] => none
  | x :: rest =>
    if x = '-' then (parseDigitPrefix rest).map (fun n => -n)
    else if x = '+' then parseDigitPrefix rest
    else parseDigitPrefix l

/-- `parseInt` applied to an indexing result: `undefined` (`none`) parses to
`NaN`. -/
def jsParseInt (o : Option (List Char)) : Option Int := o.bind jsParseIntChars

/-- JS `String.prototype.split` with a one-character separator. -/
def splitSep (c : Char) : List Char → List (List Char)
  | [] => [[]]
  | x :: xs =>
    if x = c then [] :: splitSep c xs
    else
      match splitSep c xs with
      | [] => [[x]]
      | h :: t => (x :: h) :: t

/-- JS `String.prototype.endsWith('?')`. -/
def jsEndsWithQ (l : List Char) : Bool := l.getLast? == some '?'

/-- ECMAScript `Date.UTC(y, m, d)` at midnight: the two-digit-year mapping,
`MakeDay` month/day normalisation, and `TimeClip` to `NaN` outside
±8.64e15 ms. -/
def dateUTC (y m d : Int) : Option Int :=
  let yr := if 0 ≤ y ∧ y ≤ 99 then y + 1900 else y
  let ms := makeDay yr m d * msPerDay
  if ms < -8640000000000000 ∨ 8640000000000000 < ms then none else some ms

/-- `parseDate` from `src/code.js`: strips a trailing `?` into `isUncertain`,
splits on `-`, `parseInt`s the first three fields, and builds the UTC date.
The `Option Int` is the JS `Date` value (`none` = `Invalid Date`); note the
function never throws. -/
def parseDate (dateString : List Char) : Option Int × Bool :=
  let isUncertain := jsEndsWithQ dateString
  let cleanDateString := if isUncertain then dateString.dropLast else dateString
  let parts := splitSep '-' cleanDateString
  match jsParseInt parts[0]?, jsParseInt parts[1]?, jsParseInt parts[2]? with
  | some y, some m, some d => (dateUTC y (m - 1) d, isUncertain)
  | _, _, _ => (none, isUncertain)

/-- The date-token pattern of the dataset schema,
`^\d{4}-\d{2}-\d{2}\??$`. -/
def matchesDatePattern : List Char → Bool
  | [y1, y2, y3, y4, s1, m1, m2, s2, d1, d2] =>
    isDigitCh y1 && isDigitCh y2 && isDigitCh y3 && isDigitCh y4 && s1 == '-' &&
      isDigitCh m1 && isDigitCh m2 && s2 == '-' && isDigitCh d1 && isDigitCh d2
  | [y1, y2, y3, y4, s1, m1, m2, s2, d1, d2, q] =>
    isDigitCh y1 && isDigitCh y2 && isDigitCh y3 && isDigitCh y4 && s1 == '-' &&
      isDigitCh m1 && isDigitCh m2 && s2 == '-' && isDigitCh d1 && isDigitCh d2 && q == '?'
  | _ => false

/-- ASCII digit character of `n ≤ 9`. -/
def digitCh (n : Nat) : Char := Char.ofNat (48 + n)

/-- Two-digit rendering of `n ≤ 99`. -/
def digits2 (n : Nat) : List Char := [digitCh (n / 10), digitCh (n % 10)]

/-- Four-digit rendering of `n ≤ 9999`. -/
def digits4 (n : Nat) : List Char :=
  [digitCh (n / 1000), digitCh (n / 100 % 10), digitCh (n / 10 % 10), digitCh (n % 10)]

/-- The canonical pattern-matching token `YYYY-MM-DD` with optional `?`. -/
def dateToken (y m d : Nat) (u : Bool) : List Char :=
  digits4 y ++ '-' :: digits2 m ++ '-' :: digits2 d ++ (if u then ['?'] else [])

theorem digitCh_toNat (n : Nat) (h : n ≤ 9) : (digitCh n).toNat = 48 + n := by
  interval_cases n <;> decide

theorem isDigitCh_digitCh (n : Nat) (h : n ≤ 9) : isDigitCh (digitCh n) = true := by
  interval_cases n <;> decide

theorem digitCh_ne_dash (n : Nat) (h : n ≤ 9) : digitCh n ≠ '-' := by
  interval_cases n <;> decide

theorem digitCh_ne_plus (n : Nat) (h : n ≤ 9) : digitCh n ≠ '+' := by
  interval_cases n <;> decide

theorem digitCh_ne_qm (n : Nat) (h : n ≤ 9) : digitCh n ≠ '?' := by
  interval_cases n <;> decide

theorem splitSep_of_not_mem (c : Char) : ∀ (l : List Char), c ∉ l → splitSep c l = [l] := by
  intro l
  induction l with
  | nil => intro _; rfl
  | cons x xs ih =>
    intro h
    have hx : ¬x = c := by
      intro he
      exact h (he ▸ List.mem_cons_self x xs)
    have hxs : c ∉ xs := fun hmem => h (List.mem_cons_of_mem x hmem)
    simp only [splitSep, if_neg hx, ih hxs]

theorem splitSep_append (c : Char) : ∀ (a b : List Char), c ∉ a →
    splitSep c (a ++ c :: b) = a :: splitSep c b := by
  intro a
  induction a with
  | nil =>
    intro b _
    simp [splitSep]
  | cons x xs ih =>
    intro b h
    have hx : ¬x = c := by
      intro he
      exact h (he ▸ List.mem_cons_self x xs)
    have hxs : c ∉ xs := fun hmem => h (List.mem_cons_of_mem x hmem)
    simp only [List.cons_append, splitSep, if_neg hx, List.append_eq, ih b hxs]

theorem dash_not_mem_digits4 (y : Nat) (hy : y ≤ 9999) : '-' ∉ digits4 y := by
  simp only [digits4, List.mem_cons, List.not_mem_nil, or_false]
  push_neg
  refine ⟨?_, ?_, ?_, ?_⟩ <;>
    exact fun he => digitCh_ne_dash _ (by omega) he.symm

theorem dash_not_mem_digits2 (m : Nat) (hm : m ≤ 99) : '-' ∉ digits2 m := by
  simp only [digits2, List.mem_cons, List.not_mem_nil, or_false]
  push_neg
  refine ⟨?_, ?_⟩ <;>
    exact fun he => digitCh_ne_dash _ (by omega) he.symm

theorem jsParseIntChars_digits4 (y : Nat) (hy : y ≤ 9999) :
    jsParseIntChars (digits4 y) = some (y : Int) := by
  have hb1 : y / 1000 ≤ 9 := by omega
  have hb2 : y / 100 % 10 ≤ 9 := by omega
  have hb3 : y / 10 % 10 ≤ 9 := by omega
  have hb4 : y % 10 ≤ 9 := by omega
  have hne1 := digitCh_ne_dash _ hb1
  have hne2 := digitCh_ne_plus _ hb1
  have hd1 := isDigitCh_digitCh _ hb1
  have hd2 := isDigitCh_digitCh _ hb2
  have hd3 := isDigitCh_digitCh _ hb3
  have hd4 := isDigitCh_digitCh _ hb4
  have ht1 := digitCh_toNat _ hb1
  have ht2 := digitCh_toNat _ hb2
  have ht3 := digitCh_toNat _ hb3
  have ht4 := digitCh_toNat _ hb4
  simp only [digits4, jsParseIntChars, if_neg hne1, if_neg hne2, parseDigitPrefix,
    List.takeWhile, hd1, hd2, hd3, hd4, List.isEmpty_cons, digitsToNat, List.foldl,
    ht1, ht2, ht3, ht4]
  norm_num
  omega

theorem jsParseIntChars_digits2 (m : Nat) (hm : m ≤ 99) :
    jsParseIntChars (digits2 m) = some (m : Int) := by
  have hb1 : m / 10 ≤ 9 := by omega
  have hb2 : m % 10 ≤ 9 := by omega
  have hne1 := digitCh_ne_dash _ hb1
  have hne2 := digitCh_ne_plus _ hb1
  have hd1 := isDigitCh_digitCh _ hb1
  have hd2 := isDigitCh_digitCh _ hb2
  have ht1 := digitCh_toNat _ hb1
  have ht2 := digitCh_toNat _ hb2
  simp only [digits2, jsParseIntChars, if_neg hne1, if_neg hne2, parseDigitPrefix,
    List.takeWhile, hd1, hd2, List.isEmpty_cons, digitsToNat, List.foldl, ht1, ht2]
  norm_num
  omega

theorem dateToken_true_eq (y m d : Nat) :
    dateToken y m d true = dateToken y m d false ++ ['?'] := by
  simp [dateToken, List.append_assoc]

theorem dateToken_false_concat (y m d : Nat) :
    dateToken y m d false =
      (digits4 y ++ '-' :: digits2 m ++ '-' :: [digitCh (d / 10)]) ++ [digitCh (d % 10)] := by
  simp [dateToken, digits2, List.append_assoc]

theorem jsEndsWithQ_dateToken (y m d : Nat) (u : Bool) :
    jsEndsWithQ (dateToken y m d u) = u := by
  cases u
  · rw [jsEndsWithQ, dateToken_false_concat, List.getLast?_concat, beq_eq_false_iff_ne]
    intro hcon
    have : digitCh (d % 10) = '?' := by
      injection hcon
    exact digitCh_ne_qm (d % 10) (by omega) this
  · rw [jsEndsWithQ, dateToken_true_eq, List.getLast?_concat]
    rfl

theorem splitSep_dateToken (y m d : Nat) (hy : y ≤ 9999) (hm : m ≤ 99) (hd : d ≤ 99) :
    splitSep '-' (dateToken y m d false) = [digits4 y, digits2 m, digits2 d] := by
  have h1 : dateToken y m d false = digits4 y ++ '-' :: (digits2 m ++ '-' :: digits2 d) := by
    simp [dateToken]
  rw [h1, splitSep_append '-' _ _ (dash_not_mem_digits4 y hy),
    splitSep_append '-' _ _ (dash_not_mem_digits2 m hm),
    splitSep_of_not_mem '-' _ (dash_not_mem_digits2 d hd)]

/-- `parseDate` on a well-formed `YYYY-MM-DD` / `YYYY-MM-DD?` token: the
result is `Date.UTC(Y, M-1, D)` of the literal fields, and `isUncertain` is
exactly the trailing `?`. -/
theorem parseDate_dateToken (y m d : Nat) (u : Bool)
    (hy : y ≤ 9999) (hm : m ≤ 99) (hd : d ≤ 99) :
    parseDate (dateToken y m d u) = (dateUTC (y : Int) ((m : Int) - 1) (d : Int), u) := by
  have hp4 := jsParseIntChars_digits4 y hy
  have hp2m := jsParseIntChars_digits2 m hm
  have hp2d := jsParseIntChars_digits2 d hd
  have hsplit := splitSep_dateToken y m d hy hm hd
  cases u
  · have hu := jsEndsWithQ_dateToken y m d false
    simp only [parseDate, hu, Bool.false_eq_true, if_false, hsplit,
      List.getElem?_cons_zero, List.getElem?_cons_succ, jsParseInt, Option.some_bind,
      hp4, hp2m, hp2d]
  · have hu := jsEndsWithQ_dateToken y m d true
    rw [dateToken_true_eq] at hu
    simp only [parseDate, dateToken_true_eq, hu, if_true, List.dropLast_concat, hsplit,
      List.getElem?_cons_zero, List.getElem?_cons_succ, jsParseInt, Option.some_bind,
      hp4, hp2m, hp2d]

theorem isDigitCh_exists (c : Char) (h : isDigitCh c = true) :
    ∃ n, n ≤ 9 ∧ c = digitCh n := by
  have hb : 48 ≤ c.toNat ∧ c.toNat ≤ 57 := by
    simp only [isDigitCh, Bool.and_eq_true, decide_eq_true_eq] at h
    obtain ⟨h1, h2⟩ := h
    rw [Char.le_def] at h1 h2
    exact ⟨h1, h2⟩
  refine ⟨c.toNat - 48, by omega, ?_⟩
  rw [digitCh]
  have he : 48 + (c.toNat - 48) = c.toNat := by omega
  rw [he, Char.ofNat_toNat]

/-- Every token matching the schema pattern is a canonical
`YYYY-MM-DD`/`YYYY-MM-DD?` token. -/
theorem matchesDatePattern_complete (s : List Char) (h : matchesDatePattern s = true) :
    ∃ y m d u, y ≤ 9999 ∧ m ≤ 99 ∧ d ≤ 99 ∧ s = dateToken y m d u := by
  unfold matchesDatePattern at h
  split at h
  case h_1 y1 y2 y3 y4 s1 m1 m2 s2 d1 d2 =>
    simp only [Bool.and_eq_true, beq_iff_eq] at h
    obtain ⟨⟨⟨⟨⟨⟨⟨⟨⟨hy1, hy2⟩, hy3⟩, hy4⟩, hs1⟩, hm1⟩, hm2⟩, hs2⟩, hd1⟩, hd2⟩ := h
    obtain ⟨n1, hn1, he1⟩ := isDigitCh_exists _ hy1
    obtain ⟨n2, hn2, he2⟩ := isDigitCh_exists _ hy2
    obtain ⟨n3, hn3, he3⟩ := isDigitCh_exists _ hy3
    obtain ⟨n4, hn4, he4⟩ := isDigitCh_exists _ hy4
    obtain ⟨n5, hn5, he5⟩ := isDigitCh_exists _ hm1
    obtain ⟨n6, hn6, he6⟩ := isDigitCh_exists _ hm2
    obtain ⟨n7, hn7, he7⟩ := isDigitCh_exists _ hd1
    obtain ⟨n8, hn8, he8⟩ := isDigitCh_exists _ hd2
    refine ⟨n1 * 1000 + n2 * 100 + n3 * 10 + n4, n5 * 10 + n6, n7 * 10 + n8, false,
      by omega, by omega, by omega, ?_⟩
    subst he1 he2 he3 he4 he5 he6 he7 he8 hs1 hs2
    have d1 : (n1 * 1000 + n2 * 100 + n3 * 10 + n4) / 1000 = n1 := by omega
    have d2 : (n1 * 1000 + n2 * 100 + n3 * 10 + n4) / 100 % 10 = n2 := by omega
    have d3 : (n1 * 1000 + n2 * 100 + n3 * 10 + n4) / 10 % 10 = n3 := by omega
    have d4 : (n1 * 1000 + n2 * 100 + n3 * 10 + n4) % 10 = n4 := by omega
    have d5 : (n5 * 10 + n6) / 10 = n5 := by omega
    have d6 : (n5 * 10 + n6) % 10 = n6 := by omega
    have d7 : (n7 * 10 + n8) / 10 = n7 := by omega
    have d8 : (n7 * 10 + n8) % 10 = n8 := by omega
    simp [dateToken, digits4, digits2, d1, d2, d3, d4, d5, d6, d7, d8]
  case h_2 y1 y2 y3 y4 s1 m1 m2 s2 d1 d2 q =>
    simp only [Bool.and_eq_true, beq_iff_eq] at h
    obtain ⟨⟨⟨⟨⟨⟨⟨⟨⟨⟨hy1, hy2⟩, hy3⟩, hy4⟩, hs1⟩, hm1⟩, hm2⟩, hs2⟩, hd1⟩, hd2⟩, hq⟩ := h
    obtain ⟨n1, hn1, he1⟩ := isDigitCh_exists _ hy1
    obtain ⟨n2, hn2, he2⟩ := isDigitCh_exists _ hy2
    obtain ⟨n3, hn3, he3⟩ := isDigitCh_exists _ hy3
    obtain ⟨n4, hn4, he4⟩ := isDigitCh_exists _ hy4
    obtain ⟨n5, hn5, he5⟩ := isDigitCh_exists _ hm1
    obtain ⟨n6, hn6, he6⟩ := isDigitCh_exists _ hm2
    obtain ⟨n7, hn7, he7⟩ := isDigitCh_exists _ hd1
    obtain ⟨n8, hn8, he8⟩ := isDigitCh_exists _ hd2
    refine ⟨n1 * 1000 + n2 * 100 + n3 * 10 + n4, n5 * 10 + n6, n7 * 10 + n8, true,
      by omega, by omega, by omega, ?_⟩
    subst he1 he2 he3 he4 he5 he6 he7 he8 hs1 hs2 hq
    have d1 : (n1 * 1000 + n2 * 100 + n3 * 10 + n4) / 1000 = n1 := by omega
    have d2 : (n1 * 1000 + n2 * 100 + n3 * 10 + n4) / 100 % 10 = n2 := by omega
    have d3 : (n1 * 1000 + n2 * 100 + n3 * 10 + n4) / 10 % 10 = n3 := by omega
    have d4 : (n1 * 1000 + n2 * 100 + n3 * 10 + n4) % 10 = n4 := by omega
    have d5 : (n5 * 10 + n6) / 10 = n5 := by omega
    have d6 : (n5 * 10 + n6) % 10 = n6 := by omega
    have d7 : (n7 * 10 + n8) / 10 = n7 := by omega
    have d8 : (n7 * 10 + n8) % 10 = n8 := by omega
    simp [dateToken, digits4, digits2, d1, d2, d3, d4, d5, d6, d7, d8]
  case h_3 => exact absurd h (by simp)

theorem dayFromYear_mono {a b : Int} (h : a ≤ b) : dayFromYear a ≤ dayFromYear b := by
  simp only [dayFromYear]
  omega

theorem cumMonth_nonneg (lp : Bool) : ∀ k : Nat, 0 ≤ cumMonth lp k := by
  intro k
  induction k with
  | zero => simp [cumMonth]
  | succ k ih =>
    have hp := daysInMonthN_pos lp k
    have hs : cumMonth lp (k + 1) = cumMonth lp k + daysInMonthN lp k := rfl
    omega

theorem cumMonth_le_366 (lp : Bool) (k : Nat) (hk : k ≤ 12) : cumMonth lp k ≤ 366 := by
  interval_cases k <;> cases lp <;> decide

/-- `Date.UTC` does not clip for calendar dates with a four-digit year
`≥ 100`; the result is the literal calendar point at UTC midnight. -/
theorem dateUTC_eval (y m d : Int) (hy1 : 100 ≤ y) (hy2 : y ≤ 9999)
    (hm0 : 0 ≤ m) (hm1 : m ≤ 11) (hd0 : 1 ≤ d) (hd1 : d ≤ 31) :
    dateUTC y m d = some (makeDay y m d * msPerDay) := by
  have hcond : ¬(0 ≤ y ∧ y ≤ 99) := by omega
  have hlow : -700000 ≤ dayFromYear 100 := by decide
  have hhigh : dayFromYear 9999 ≤ 3000000 := by decide
  have hm1' := dayFromYear_mono (show (100 : Int) ≤ y + m / 12 by omega)
  have hm2' := dayFromYear_mono (show y + m / 12 ≤ 9999 by omega)
  have hc0 := cumMonth_nonneg (isLeapYear (y + m / 12)) (m % 12).toNat
  have hc1 := cumMonth_le_366 (isLeapYear (y + m / 12)) (m % 12).toNat (by omega)
  have hmk : makeDay y m d =
      dayFromYear (y + m / 12) + cumMonth (isLeapYear (y + m / 12)) (m % 12).toNat + (d - 1) :=
    rfl
  have hbound : -700001 ≤ makeDay y m d ∧ makeDay y m d ≤ 3000397 := by
    rw [hmk]
    omega
  simp only [dateUTC, if_neg hcond]
  rw [if_neg]
  simp only [msPerDay]
  omega

/-- Whatever the token, a `some` result of `parseDate` is a midnight-aligned
timestamp within the `TimeClip` range. -/
theorem parseDate_some_props (s : List Char) (t : Int) (u : Bool)
    (h : parseDate s = (some t, u)) :
    t % msPerDay = 0 ∧ -8640000000000000 ≤ t ∧ t ≤ 8640000000000000 := by
  simp only [parseDate] at h
  split at h
  · rename_i yv mv dv hy hm hd
    have hdu : dateUTC yv (mv - 1) dv = some t := by
      have h1 := congrArg Prod.fst h
      simpa using h1
    simp only [dateUTC] at hdu
    set A := makeDay (if 0 ≤ yv ∧ yv ≤ 99 then yv + 1900 else yv) (mv - 1) dv * msPerDay with hA
    by_cases hclip : A < -8640000000000000 ∨ 8640000000000000 < A
    · rw [if_pos hclip] at hdu
      exact absurd hdu (by simp)
    · rw [if_neg hclip] at hdu
      have ht : A = t := by injection hdu
      push_neg at hclip
      refine ⟨?_, by omega, by omega⟩
      rw [← ht, hA]
      exact Int.mul_emod_left _ _
  · exfalso
    have h1 := congrArg Prod.fst h
    simp at h1

/-! ## The dataset model -/

/-- One dated milestone (`{date, description}` in the dataset). -/
structure EventDate where
  date : List Char
  description : List Char
  deriving DecidableEq, Repr

/-- One submission/review cycle (`{name, dates}`); named `ReviewCycle`
because `Cycle` is taken by Mathlib. -/
structure ReviewCycle where
  name : List Char
  dates : List EventDate
  deriving DecidableEq, Repr

/-- One yearly installment (`{year, website, cycles}`). -/
structure Installment where
  year : Int
  website : List Char
  cycles : List ReviewCycle
  deriving DecidableEq, Repr

/-- One conference (`{id, conference, full_name, installments}`). -/
structure Conference where
  id : List Char
  conference : List Char
  full_name : List Char
  installments : List Installment
  deriving DecidableEq, Repr

/-- The parsed `Date` value of an event (ignoring uncertainty), as used by
the sort comparator and the layout engine. -/
def dateKey (e : EventDate) : Option Int := (parseDate e.date).1

/-! ## Load-time sorting (`sortConferenceDataDates`) -/

/-- "`a` does not have to come after `b`" under the JS sort comparator
`parseDate(a).date - parseDate(b).date`; a `NaN` comparator value is treated
as `0` by `Array.prototype.sort`, i.e. keeps the stable order. -/
def sortLeDates (a b : EventDate) : Bool :=
  match dateKey a, dateKey b with
  | some x, some y => decide (x ≤ y)
  | _, _ => true

/-- Sort one cycle's dates chronologically (stable, per the ECMAScript sort
contract; realised as an insertion sort, which is stable). The code only
sorts when `dates.length > 1`. -/
def sortCycleDates (cycle : ReviewCycle) : ReviewCycle :=
  if 1 < cycle.dates.length then
    { cycle with dates := List.insertionSort (fun a b => sortLeDates a b = true) cycle.dates }
  else cycle

/-- `sortConferenceDataDates` from `src/code.js`: sort every cycle of every
installment of every conference (the JS mutates in place; the model returns
the updated dataset). -/
def sortConferenceDataDates (data : List Conference) : List Conference :=
  data.map fun conf =>
    { conf with
      installments := conf.installments.map fun inst =>
        { inst with cycles := inst.cycles.map sortCycleDates } }

theorem sortLeDates_total (a b : EventDate)
    (ha : (dateKey a).isSome = true) (hb : (dateKey b).isSome = true) :
    sortLeDates a b = true ∨ sortLeDates b a = true := by
  obtain ⟨x, hx⟩ := Option.isSome_iff_exists.mp ha
  obtain ⟨y, hy⟩ := Option.isSome_iff_exists.mp hb
  simp only [sortLeDates, hx, hy, decide_eq_true_eq]
  omega

theorem sortLeDates_trans (a b c : EventDate)
    (ha : (dateKey a).isSome = true) (hb : (dateKey b).isSome = true)
    (hc : (dateKey c).isSome = true)
    (h1 : sortLeDates a b = true) (h2 : sortLeDates b c = true) :
    sortLeDates a c = true := by
  obtain ⟨x, hx⟩ := Option.isSome_iff_exists.mp ha
  obtain ⟨y, hy⟩ := Option.isSome_iff_exists.mp hb
  obtain ⟨z, hz⟩ := Option.isSome_iff_exists.mp hc
  simp only [sortLeDates, hx, hy, hz, decide_eq_true_eq] at *
  omega

theorem orderedInsert_sorted_valid :
    ∀ (l : List EventDate) (a : EventDate),
      (∀ e ∈ a :: l, (dateKey e).isSome = true) →
      List.Sorted (fun x y => sortLeDates x y = true) l →
      List.Sorted (fun x y => sortLeDates x y = true)
        (List.orderedInsert (fun x y => sortLeDates x y = true) a l) := by
  intro l
  induction l with
  | nil =>
    intro a _ _
    simp [List.orderedInsert]
  | cons b l ih =>
    intro a hv hs
    rw [List.orderedInsert]
    split
    · rename_i hab
      refine List.sorted_cons.mpr ⟨?_, hs⟩
      intro x hx
      rcases List.mem_cons.mp hx with he | hxl
      · exact he ▸ hab
      · have hbx := (List.sorted_cons.mp hs).1 x hxl
        exact sortLeDates_trans a b x
          (hv a (List.mem_cons_self a _)) (hv b (by simp)) (hv x (by simp [hxl])) hab hbx
    · rename_i hab
      have hba : sortLeDates b a = true := by
        rcases sortLeDates_total a b (hv a (List.mem_cons_self a _)) (hv b (by simp)) with h | h
        · exact absurd h hab
        · exact h
      refine List.sorted_cons.mpr ⟨?_, ?_⟩
      · intro x hx
        simp only [List.mem_orderedInsert] at hx
        rcases hx with he | hxl
        · exact he ▸ hba
        · exact (List.sorted_cons.mp hs).1 x hxl
      · exact ih a (by
          intro e he
          rcases List.mem_cons.mp he with he' | he'
          · exact he' ▸ hv a (List.mem_cons_self a _)
          · exact hv e (by simp [he'])) (List.sorted_cons.mp hs).2

theorem insertionSort_sorted_valid (l : List EventDate)
    (hv : ∀ e ∈ l, (dateKey e).isSome = true) :
    List.Sorted (fun x y => sortLeDates x y = true)
      (List.insertionSort (fun x y => sortLeDates x y = true) l) := by
  induction l with
  | nil => simp
  | cons a l ih =>
    rw [List.insertionSort]
    apply orderedInsert_sorted_valid
    · intro e he
      rcases List.mem_cons.mp he with he' | he'
      · exact he' ▸ hv a (List.mem_cons_self a _)
      · have := (List.perm_insertionSort (fun x y => sortLeDates x y = true) l).mem_iff.mp he'
        exact hv e (by simp [this])
    · exact ih (fun e he => hv e (by simp [he]))

/-! ## Date Range Calculator (`calculateTimelineDateRange`) -/

/-- One pass of the min/max scan.  The state is
`(minDate value, maxDate value, minDate object id, maxDate object id)`:
JS `minDate`/`maxDate` are object references, and with a single event both
can come to alias the *same* `Date` object, which matters because the
padding below mutates in place.  Sentinels `new Date(8.64e15)` /
`new Date(-8.64e15)` carry object ids 0 and 1; the `Date` parsed from event
`i` carries id `i + 2`.  An invalid parsed date never wins a comparison
(`NaN` compares false), exactly as in JS. -/
def rangeScanAux : List EventDate → Nat → Int × Int × Nat × Nat → Int × Int × Nat × Nat
  | [], _, st => st
  | e :: es, i, st =>
    match dateKey e with
    | some t =>
      let m' := if t < st.1 then (t, i + 2) else (st.1, st.2.2.1)
      let x' := if st.2.1 < t then (t, i + 2) else (st.2.1, st.2.2.2)
      rangeScanAux es (i + 1) (m'.1, x'.1, m'.2, x'.2)
    | none => rangeScanAux es (i + 1) st

def rangeScan (events : List EventDate) : Int × Int × Nat × Nat :=
  rangeScanAux events 0 (8640000000000000, -8640000000000000, 0, 1)

/-- All event dates of the rendered conferences, in traversal order. -/
def allEventDates (conferences : List Conference) : List EventDate :=
  conferences.flatMap fun conf =>
    conf.installments.flatMap fun inst =>
      inst.cycles.flatMap fun cycle => cycle.dates

/-- `calculateTimelineDateRange` from `src/code.js`: scan all event dates for
the min/max `Date`, then pad in place: `minDate.setUTCMonth(-1); setUTCDate(1)`
and `maxDate.setUTCMonth(+1); setUTCDate(1)`.  When `minDate` and `maxDate`
alias the same object (all event dates equal, or no dates at all — ids 0 and 1
differ, so only the all-equal case aliases), all four mutations hit that one
object, as in the JS. Returns `(minDate, maxDate, totalTimelineDays)`. -/
def calculateTimelineDateRange (conferencesToRender : List Conference) : Int × Int × Int :=
  let st := rangeScan (allEventDates conferencesToRender)
  if st.2.2.1 = st.2.2.2 then
    let v1 := jsSetUTCMonth st.1 (jsGetUTCMonth st.1 - 1)
    let v2 := jsSetUTCDate v1 1
    let v3 := jsSetUTCMonth v2 (jsGetUTCMonth v2 + 1)
    let v4 := jsSetUTCDate v3 1
    (v4, v4, diffDays v4 v4)
  else
    let minDate := jsSetUTCDate (jsSetUTCMonth st.1 (jsGetUTCMonth st.1 - 1)) 1
    let maxDate := jsSetUTCDate (jsSetUTCMonth st.2.1 (jsGetUTCMonth st.2.1 + 1)) 1
    (minDate, maxDate, diffDays minDate maxDate)

/-- State invariant of the range scan: midnight-aligned, clip-bounded values,
fresh ids ahead of all stored ids, and "aliased implies equal values". -/
def RangeInv (st : Int × Int × Nat × Nat) (i : Nat) : Prop :=
  st.1 % msPerDay = 0 ∧ -8640000000000000 ≤ st.1 ∧ st.1 ≤ 8640000000000000 ∧
    st.2.1 % msPerDay = 0 ∧ -8640000000000000 ≤ st.2.1 ∧ st.2.1 ≤ 8640000000000000 ∧
    (st.2.2.1 = st.2.2.2 → st.1 = st.2.1) ∧ st.2.2.1 < i + 2 ∧ st.2.2.2 < i + 2

theorem rangeScanAux_spec : ∀ (events : List EventDate) (i : Nat) (st : Int × Int × Nat × Nat),
    RangeInv st i →
    RangeInv (rangeScanAux events i st) (i + events.length) ∧
      (rangeScanAux events i st).1 ≤ st.1 ∧ st.2.1 ≤ (rangeScanAux events i st).2.1 ∧
      (∀ e ∈ events, ∀ t, dateKey e = some t →
        (rangeScanAux events i st).1 ≤ t ∧ t ≤ (rangeScanAux events i st).2.1) := by
  intro events
  induction events with
  | nil =>
    intro i st hinv
    refine ⟨?_, le_refl _, le_refl _, by simp⟩
    simpa using hinv
  | cons e es ih =>
    intro i st hinv
    obtain ⟨h1, h2, h3, h4, h5, h6, h7, h8, h9⟩ := hinv
    cases hk : dateKey e with
    | none =>
      have hred : rangeScanAux (e :: es) i st = rangeScanAux es (i + 1) st := by
        rw [rangeScanAux, hk]
      have hnext := ih (i + 1) st ⟨h1, h2, h3, h4, h5, h6, h7, by omega, by omega⟩
      rw [hred]
      refine ⟨?_, hnext.2.1, hnext.2.2.1, ?_⟩
      · have harr : i + (e :: es).length = (i + 1) + es.length := by
          rw [List.length_cons]
          omega
        rw [harr]
        exact hnext.1
      · intro e' he' t ht
        rcases List.mem_cons.mp he' with he'' | he''
        · subst he''
          rw [hk] at ht
          exact absurd ht (by simp)
        · exact hnext.2.2.2 e' he'' t ht
    | some t =>
      obtain ⟨ht0, ht1, ht2⟩ := parseDate_some_props e.date t (parseDate e.date).2 (by
        rw [dateKey] at hk
        rw [← hk])
      set st' : Int × Int × Nat × Nat :=
        ((if t < st.1 then (t, i + 2) else (st.1, st.2.2.1)).1,
         (if st.2.1 < t then (t, i + 2) else (st.2.1, st.2.2.2)).1,
         (if t < st.1 then (t, i + 2) else (st.1, st.2.2.1)).2,
         (if st.2.1 < t then (t, i + 2) else (st.2.1, st.2.2.2)).2) with hst'
      have hred : rangeScanAux (e :: es) i st = rangeScanAux es (i + 1) st' := by
        rw [rangeScanAux, hk]
      have hinv' : RangeInv st' (i + 1) := by
        rw [hst', RangeInv]
        split_ifs with hlt hgt hgt <;>
          dsimp only <;>
          refine ⟨by omega, by omega, by omega, by omega, by omega, by omega, ?_,
            by omega, by omega⟩ <;>
          intro hid <;>
          omega
      have hmono1 : st'.1 ≤ st.1 := by
        rw [hst']
        dsimp only
        split_ifs with hlt <;> omega
      have hmono2 : st.2.1 ≤ st'.2.1 := by
        rw [hst']
        dsimp only
        split_ifs with hgt <;> omega
      have hcontains : st'.1 ≤ t ∧ t ≤ st'.2.1 := by
        rw [hst']
        dsimp only
        constructor
        · split_ifs with hlt <;> omega
        · split_ifs with hgt <;> omega
      have hnext := ih (i + 1) st' hinv'
      rw [hred]
      refine ⟨?_, le_trans hnext.2.1 hmono1, le_trans hmono2 hnext.2.2.1, ?_⟩
      · have harr : i + (e :: es).length = (i + 1) + es.length := by
          rw [List.length_cons]
          omega
        rw [harr]
        exact hnext.1
      · intro e' he' t' ht'
        rcases List.mem_cons.mp he' with he'' | he''
        · subst he''
          rw [hk] at ht'
          have heq : t' = t := by
            injection ht'.symm
          subst heq
          exact ⟨le_trans hnext.2.1 hcontains.1, le_trans hcontains.2 hnext.2.2.1⟩
        · exact hnext.2.2.2 e' he'' t' ht'

theorem rangeScan_base_inv : RangeInv (8640000000000000, -8640000000000000, 0, 1) 0 := by
  refine ⟨by decide, by decide, by decide, by decide, by decide, by decide, ?_, by decide, by decide⟩
  intro h
  exact absurd h (by decide)

/-- With at least two distinct valid event dates, the padded timeline range
strictly contains every event date, both endpoints are midnight-aligned, and
the day span is positive. -/
theorem calculateTimelineDateRange_bounds (confs : List Conference) (t1 t2 : Int)
    (e1 e2 : EventDate)
    (he1 : e1 ∈ allEventDates confs) (he2 : e2 ∈ allEventDates confs)
    (hk1 : dateKey e1 = some t1) (hk2 : dateKey e2 = some t2) (hne : t1 ≠ t2) :
    (∀ e ∈ allEventDates confs, ∀ t, dateKey e = some t →
      (calculateTimelineDateRange confs).1 < t ∧ t < (calculateTimelineDateRange confs).2.1) ∧
    (calculateTimelineDateRange confs).1 % msPerDay = 0 ∧
    (calculateTimelineDateRange confs).2.1 % msPerDay = 0 ∧
    (calculateTimelineDateRange confs).2.2 =
      (calculateTimelineDateRange confs).2.1 / msPerDay -
        (calculateTimelineDateRange confs).1 / msPerDay ∧
    0 < (calculateTimelineDateRange confs).2.2 := by
  have hspec := rangeScanAux_spec (allEventDates confs) 0
    (8640000000000000, -8640000000000000, 0, 1) rangeScan_base_inv
  have hrs : rangeScanAux (allEventDates confs) 0 (8640000000000000, -8640000000000000, 0, 1) =
      rangeScan (allEventDates confs) := rfl
  rw [hrs] at hspec
  obtain ⟨hinv, _, _, hall⟩ := hspec
  obtain ⟨hm0, hm1, hm2, hx0, hx1, hx2, hidimp, hi1, hi2⟩ := hinv
  have hb1 := hall e1 he1 t1 hk1
  have hb2 := hall e2 he2 t2 hk2
  have hidne : ¬((rangeScan (allEventDates confs)).2.2.1 =
      (rangeScan (allEventDates confs)).2.2.2) := by
    intro h
    have := hidimp h
    rcases lt_or_gt_of_ne hne with hcase | hcase <;> omega
  have hcalc : calculateTimelineDateRange confs =
      (jsSetUTCDate (jsSetUTCMonth (rangeScan (allEventDates confs)).1
          (jsGetUTCMonth (rangeScan (allEventDates confs)).1 - 1)) 1,
       jsSetUTCDate (jsSetUTCMonth (rangeScan (allEventDates confs)).2.1
          (jsGetUTCMonth (rangeScan (allEventDates confs)).2.1 + 1)) 1,
       diffDays
         (jsSetUTCDate (jsSetUTCMonth (rangeScan (allEventDates confs)).1
            (jsGetUTCMonth (rangeScan (allEventDates confs)).1 - 1)) 1)
         (jsSetUTCDate (jsSetUTCMonth (rangeScan (allEventDates confs)).2.1
            (jsGetUTCMonth (rangeScan (allEventDates confs)).2.1 + 1)) 1)) := by
    rw [calculateTimelineDateRange, if_neg hidne]
  have hlt1 := padMin_lt (rangeScan (allEventDates confs)).1 hm0
  have hlt2 := padMax_gt (rangeScan (allEventDates confs)).2.1 hx0
  have hmod1 := jsSetUTCDate_mod (jsSetUTCMonth (rangeScan (allEventDates confs)).1
    (jsGetUTCMonth (rangeScan (allEventDates confs)).1 - 1)) 1
    (jsSetUTCMonth_mod _ _ hm0)
  have hmod2 := jsSetUTCDate_mod (jsSetUTCMonth (rangeScan (allEventDates confs)).2.1
    (jsGetUTCMonth (rangeScan (allEventDates confs)).2.1 + 1)) 1
    (jsSetUTCMonth_mod _ _ hx0)
  have hdd := diffDays_midnight _ _ hmod1 hmod2
  rw [hcalc]
  dsimp only
  refine ⟨?_, hmod1, hmod2, hdd, ?_⟩
  · intro e he t hk
    have hb := hall e he t hk
    exact ⟨by omega, by omega⟩
  · rw [hdd]
    simp only [msPerDay] at *
    omega

/-! ## Scale Calculator (`calculateSvgDimensions`) -/

/-- Bootstrap 'md' breakpoint from `src/code.js`. -/
def SMALL_BREAKPOINT : ℚ := 768

/-- `calculateSvgDimensions` from `src/code.js`.  Arguments: the total day
span, the `today` timestamp, the scroll container width, and the viewport
width (`window.innerWidth`).  Returns
`(totalSvgTimelineWidth, pixelsPerDay)`. -/
def calculateSvgDimensions (totalTimelineDays : Int) (today : Int)
    (scrollContainerWidth : ℚ) (innerWidth : ℚ) : ℚ × ℚ :=
  let timelineDurationMonths : Int := if innerWidth < SMALL_BREAKPOINT then 3 else 12
  let initialViewEndDate := jsSetUTCMonth today (jsGetUTCMonth today + timelineDurationMonths)
  let initialViewDays := diffDays today initialViewEndDate
  let pixelsPerDay : ℚ :=
    if 0 < initialViewDays then scrollContainerWidth / (initialViewDays : ℚ) else 1
  let totalSvgTimelineWidth := (totalTimelineDays : ℚ) * pixelsPerDay
  (totalSvgTimelineWidth, pixelsPerDay)

/-- The initial-view day count of `calculateSvgDimensions`. -/
def initialViewDaysOf (today : Int) (innerWidth : ℚ) : Int :=
  diffDays today
    (jsSetUTCMonth today (jsGetUTCMonth today + (if innerWidth < SMALL_BREAKPOINT then 3 else 12)))

/-- The initial view window is always a strictly positive number of days,
whatever the `today` timestamp. -/
theorem initialViewDaysOf_pos (today : Int) (innerWidth : ℚ) :
    0 < initialViewDaysOf today innerWidth := by
  rw [initialViewDaysOf]
  set k : Int := if innerWidth < SMALL_BREAKPOINT then 3 else 12 with hk
  have hk1 : 1 ≤ k := by
    rw [hk]
    split <;> norm_num
  have hlt := jsSetUTCMonth_add_lt today k hk1
  set t' := jsSetUTCMonth today (jsGetUTCMonth today + k) with ht'
  have hmod : t' % msPerDay = today % msPerDay := by
    rw [ht', jsSetUTCMonth]
    simp only [msPerDay] at *
    omega
  rw [diffDays]
  have hday : today / msPerDay < t' / msPerDay := by
    simp only [msPerDay] at *
    omega
  have hk2 : t' - today = msPerDay * (t' / msPerDay - today / msPerDay) := by
    simp only [msPerDay] at *
    omega
  rw [hk2]
  have hq : ((msPerDay * (t' / msPerDay - today / msPerDay) : Int) : ℚ) / 86400000 =
      ((t' / msPerDay - today / msPerDay : Int) : ℚ) := by
    simp only [msPerDay]
    push_cast
    ring
  rw [hq, jsRound_intCast]
  omega

theorem calculateSvgDimensions_eq (totalTimelineDays : Int) (today : Int)
    (scrollContainerWidth : ℚ) (innerWidth : ℚ) :
    calculateSvgDimensions totalTimelineDays today scrollContainerWidth innerWidth =
      ((totalTimelineDays : ℚ) * (scrollContainerWidth / (initialViewDaysOf today innerWidth : ℚ)),
        scrollContainerWidth / (initialViewDaysOf today innerWidth : ℚ)) := by
  rw [calculateSvgDimensions]
  have hpos := initialViewDaysOf_pos today innerWidth
  rw [initialViewDaysOf] at hpos
  simp only [if_pos hpos, initialViewDaysOf]

/-! ## Row-Packing Engine (`calculateConferenceLayouts`) -/

/-- JS `a >= b` on possibly-`NaN` numbers: `false` whenever either side is
`NaN`. -/
def jsGeQ (a b : Option ℚ) : Bool :=
  match a, b with
  | some x, some y => decide (y ≤ x)
  | _, _ => false

/-- JS `a < b` on possibly-invalid `Date`s. -/
def jsLtD (a b : Option Int) : Bool :=
  match a, b with
  | some x, some y => decide (x < y)
  | _, _ => false

/-- JS `a > b` on possibly-invalid `Date`s. -/
def jsGtD (a b : Option Int) : Bool :=
  match a, b with
  | some x, some y => decide (y < x)
  | _, _ => false

/-- Layout constants from `src/code.js`. -/
def BAR_HEIGHT : Int := 30

def CYCLE_PADDING : Int := 5

def CONFERENCE_PADDING : Int := 10

def MONTH_LABEL_HEIGHT : Int := 20

/-- The per-cycle min/max date scan of `calculateConferenceLayouts`
(lines 718–725): start from `parse(dates[0])` and `parse(dates[last])`, then
compare every date from index 1 on.  (Note the initial max is the *last*
entry and the loop starts at 1, so an unsorted first entry is missed by the
max side — faithful to the source.) -/
def cycleMinMax (dates : List EventDate) : Option Int × Option Int :=
  match dates with
  | [] => (none, none)
  | d0 :: rest =>
    let lastKey := match dates.getLast? with
      | some e => dateKey e
      | none => none
    rest.foldl
      (fun mm e =>
        let d := dateKey e
        (if jsLtD d mm.1 then d else mm.1, if jsGtD d mm.2 then d else mm.2))
      (dateKey d0, lastKey)

/-- The span data computed for one cycle before row assignment. -/
structure PendingItem where
  cycle : ReviewCycle
  inst : Installment
  startXPixel : Option ℚ
  endXPixel : Option ℚ
  labelWidth : ℚ
  effectiveStartX : Option ℚ

/-- One cycle's span computation (`calculateConferenceLayouts` lines
716–737): skip cycles with fewer than two dates, clamp the day offsets to
`[0, totalTimelineDays]`, scale to pixels, and extend to the left by the
estimated label width (`8 * length + 15` when the cycle has a name). -/
def cycleItem (minDate totalTimelineDays : Int) (totalSvgTimelineWidth : ℚ)
    (inst : Installment) (cycle : ReviewCycle) : Option PendingItem :=
  if cycle.dates.length < 2 then none
  else
    let mm := cycleMinMax cycle.dates
    let startDaysOffset := mm.1.map (fun t => diffDays minDate t)
    let endDaysOffset := mm.2.map (fun t => diffDays minDate t)
    let startXPixel := startDaysOffset.map
      (fun s => ((max 0 s : Int) : ℚ) / (totalTimelineDays : ℚ) * totalSvgTimelineWidth)
    let endXPixel := endDaysOffset.map
      (fun e => ((min totalTimelineDays e : Int) : ℚ) / (totalTimelineDays : ℚ) *
        totalSvgTimelineWidth)
    let labelWidth : ℚ := if cycle.name.isEmpty then 0 else (cycle.name.length : ℚ) * 8 + 15
    let effectiveStartX := startXPixel.map (fun s => s - labelWidth)
    some { cycle := cycle, inst := inst, startXPixel := startXPixel, endXPixel := endXPixel,
           labelWidth := labelWidth, effectiveStartX := effectiveStartX }

/-- The flattened list of span items of one conference, in dataset order. -/
def conferenceItems (conf : Conference) (minDate totalTimelineDays : Int)
    (totalSvgTimelineWidth : ℚ) : List PendingItem :=
  conf.installments.flatMap fun inst =>
    inst.cycles.filterMap (cycleItem minDate totalTimelineDays totalSvgTimelineWidth inst)

/-- First-fit row search (`calculateConferenceLayouts` lines 740–753): scan
the rows in order; take the first row whose `endX` is `<=` the cycle's
effective start (JS `effectiveStartX >= conferenceRows[i].endX`), updating
that row's `endX`; append a new row if none fits.  Returns the assigned
index and the updated row list. -/
def assignRow : List (Option ℚ) → Option ℚ → Option ℚ → Nat × List (Option ℚ)
  | [], _, endX => (0, [endX])
  | r :: rs, effS, endX =>
    if jsGeQ effS r then (0, endX :: rs)
    else
      let p := assignRow rs effS endX
      (p.1 + 1, r :: p.2)

/-- One layout record pushed to `cycleLayouts`. -/
structure CycleLayout where
  cycle : ReviewCycle
  inst : Installment
  rowIndex : Nat
  startXPixel : Option ℚ
  endXPixel : Option ℚ
  labelWidth : ℚ

/-- The packing loop over one conference's cycles, threading the row list
and the running `maxRows`. -/
def packCycles : List PendingItem → List (Option ℚ) → Nat →
    List CycleLayout × List (Option ℚ) × Nat
  | [], rows, maxRows => ([], rows, maxRows)
  | it :: its, rows, maxRows =>
    let p := assignRow rows it.effectiveStartX it.endXPixel
    let rest := packCycles its p.2 (max maxRows (p.1 + 1))
    ({ cycle := it.cycle, inst := it.inst, rowIndex := p.1, startXPixel := it.startXPixel,
       endXPixel := it.endXPixel, labelWidth := it.labelWidth } :: rest.1, rest.2.1, rest.2.2)

/-- One conference's computed layout. -/
structure ConferenceLayout where
  conf : Conference
  confHeight : Int
  cycleLayouts : List CycleLayout

/-- Layout of a single conference: pack the cycles and derive the
conference height (`maxRows * BAR_HEIGHT + (maxRows - 1) * CYCLE_PADDING`,
0 for no rows). -/
def calculateConferenceLayoutOne (conf : Conference) (minDate totalTimelineDays : Int)
    (totalSvgTimelineWidth : ℚ) : ConferenceLayout :=
  let packed := packCycles
    (conferenceItems conf minDate totalTimelineDays totalSvgTimelineWidth) [] 0
  let maxRows := packed.2.2
  let confHeight : Int :=
    if maxRows = 0 then 0
    else (maxRows : Int) * BAR_HEIGHT + max 0 ((maxRows : Int) - 1) * CYCLE_PADDING
  { conf := conf, confHeight := confHeight, cycleLayouts := packed.1 }

/-- `calculateConferenceLayouts` from `src/code.js`: per-conference layouts
plus the total SVG height (conference heights, inter-conference padding, the
padding after the last visible conference removed, floor of
`MONTH_LABEL_HEIGHT`). -/
def calculateConferenceLayouts (conferences : List Conference)
    (minDate totalTimelineDays : Int) (totalSvgTimelineWidth : ℚ) :
    List ConferenceLayout × Int :=
  let conferenceLayouts := conferences.map
    (fun conf => calculateConferenceLayoutOne conf minDate totalTimelineDays totalSvgTimelineWidth)
  let totalRequiredHeight := MONTH_LABEL_HEIGHT + conferenceLayouts.foldl
    (fun acc l => acc + l.confHeight + (if 0 < l.confHeight then CONFERENCE_PADDING else 0)) 0
  let adjusted :=
    if conferenceLayouts.any (fun l => decide (0 < l.confHeight)) then
      totalRequiredHeight - CONFERENCE_PADDING
    else totalRequiredHeight
  (conferenceLayouts, max MONTH_LABEL_HEIGHT adjusted)

/-! ## Segment Geometry Mapper (the pair loop of `renderConferenceCycles`) -/

/-- The per-pair segment decision of `renderConferenceCycles` (lines
878–919): parse the pair, require positive duration and overlap with the
timeline (`start < end && end > minDate && start < maxDate` — false on
invalid dates, as in JS), clamp the day offsets to `[0, totalTimelineDays]`,
require a non-empty clamped interval, convert to pixels, and only emit when
the width is at least one pixel.  Returns `some (x, width)` when a bar is
rendered. -/
def segmentRect (minDate maxDate totalTimelineDays : Int) (totalSvgTimelineWidth : ℚ)
    (startEvent endEvent : EventDate) : Option (ℚ × ℚ) :=
  match (parseDate startEvent.date).1, (parseDate endEvent.date).1 with
  | some segmentStartDate, some segmentEndDate =>
    if segmentStartDate < segmentEndDate ∧ minDate < segmentEndDate ∧
        segmentStartDate < maxDate then
      let startDaysOffset := diffDays minDate segmentStartDate
      let endDaysOffset := diffDays minDate segmentEndDate
      let clampedStartDays := max 0 startDaysOffset
      let clampedEndDays := min totalTimelineDays endDaysOffset
      if clampedStartDays < clampedEndDays then
        let x := (clampedStartDays : ℚ) / (totalTimelineDays : ℚ) * totalSvgTimelineWidth
        let width := ((clampedEndDays - clampedStartDays : Int) : ℚ) /
          (totalTimelineDays : ℚ) * totalSvgTimelineWidth
        if 1 ≤ width then some (x, width) else none
      else none
    else none
  | _, _ => none

/-- All bars emitted for one cycle: the pair loop `i, i+1`. -/
def cycleSegments (minDate maxDate totalTimelineDays : Int) (totalSvgTimelineWidth : ℚ)
    (cycle : ReviewCycle) : List (ℚ × ℚ) :=
  (cycle.dates.zip cycle.dates.tail).filterMap
    (fun p => segmentRect minDate maxDate totalTimelineDays totalSvgTimelineWidth p.1 p.2)

/-! ## The full layout pass (`renderTimeline`'s calculation phase) -/

/-- The pure calculation phase of `renderTimeline`: filter by the enabled
names, compute the date range, the SVG dimensions, and the conference
layouts.  All derived state is rebuilt from the arguments; nothing is
carried over between invocations. -/
def renderTimelinePipeline (conferenceData : List Conference)
    (visibleConferenceNames : List (List Char)) (today : Int)
    (innerWidth scrollContainerWidth : ℚ) :
    (Int × Int × Int) × (ℚ × ℚ) × (List ConferenceLayout × Int) :=
  let conferencesToRender := conferenceData.filter
    (fun conf => visibleConferenceNames.contains conf.conference)
  let r := calculateTimelineDateRange conferencesToRender
  let dims := calculateSvgDimensions r.2.2 today scrollContainerWidth innerWidth
  let layouts := calculateConferenceLayouts conferencesToRender r.1 r.2.2 dims.1
  (r, dims, layouts)

theorem assignRow_spec (rows : List (Option ℚ)) (effS endX : Option ℚ) :
    (assignRow rows effS endX).1 ≤ rows.length ∧
    (∀ r, (hr : r < rows.length) → r < (assignRow rows effS endX).1 →
      jsGeQ effS (rows.get ⟨r, hr⟩) = false) ∧
    (∀ h : (assignRow rows effS endX).1 < rows.length,
      jsGeQ effS (rows.get ⟨(assignRow rows effS endX).1, h⟩) = true) ∧
    ((assignRow rows effS endX).1 < rows.length →
      (assignRow rows effS endX).2 = rows.set (assignRow rows effS endX).1 endX) ∧
    ((assignRow rows effS endX).1 = rows.length →
      (assignRow rows effS endX).2 = rows ++ [endX]) := by
  induction rows with
  | nil =>
    refine ⟨le_refl _, ?_, ?_, ?_, ?_⟩
    · intro r hr
      exact absurd hr (by simp)
    · intro h
      exact absurd h (by simp [assignRow])
    · intro h
      exact absurd h (by simp [assignRow])
    · intro _
      simp [assignRow]
  | cons r0 rs ih =>
    by_cases hge : jsGeQ effS r0 = true
    · have hred : assignRow (r0 :: rs) effS endX = (0, endX :: rs) := by
        rw [assignRow, if_pos hge]
      rw [hred]
      refine ⟨by simp, ?_, ?_, ?_, ?_⟩
      · intro r hr hlt
        exact absurd hlt (by omega)
      · intro h
        simpa using hge
      · intro _
        rfl
      · intro h
        exact absurd h (by simp)
    · have hred : assignRow (r0 :: rs) effS endX =
          ((assignRow rs effS endX).1 + 1, r0 :: (assignRow rs effS endX).2) := by
        rw [assignRow, if_neg hge]
      rw [hred]
      obtain ⟨ih1, ih2, ih3, ih4, ih5⟩ := ih
      refine ⟨by simp; omega, ?_, ?_, ?_, ?_⟩
      · intro r hr hlt
        match r with
        | 0 =>
          simpa using (Bool.not_eq_true _).mp hge
        | Nat.succ r' =>
          have hr' : r' < rs.length := by
            simpa using hr
          have := ih2 r' hr' (by omega)
          simpa using this
      · intro h
        have h' : (assignRow rs effS endX).1 < rs.length := by
          simpa using h
        have := ih3 h'
        simpa using this
      · intro h
        have h' : (assignRow rs effS endX).1 < rs.length := by
          simpa using h
        rw [ih4 h']
        rfl
      · intro h
        have h' : (assignRow rs effS endX).1 = rs.length := by
          simpa using h
        rw [ih5 h']
        rfl

/-- A span item whose pixel values are real numbers (no `NaN`) and whose
label-extended start does not exceed its end — the shape produced whenever
the cycle's dates parse and lie inside the timeline range. -/
def GoodItem (it : PendingItem) : Prop :=
  ∃ s e, it.startXPixel = some s ∧ it.endXPixel = some e ∧
    it.effectiveStartX = some (s - it.labelWidth) ∧ s - it.labelWidth ≤ e

/-- Packing-state invariant: every placed cycle's row exists, and every
row's current `endX` is a real value that equals some occupant's `endX` and
bounds every occupant's `endX` from above. -/
def PackInv (rows : List (Option ℚ)) (acc : List CycleLayout) : Prop :=
  (∀ j, (hj : j < acc.length) → acc[j].rowIndex < rows.length) ∧
  ∀ r, (hr : r < rows.length) → ∃ v : ℚ, rows[r] = some v ∧
    (∃ j, ∃ (hj : j < acc.length), acc[j].rowIndex = r ∧ acc[j].endXPixel = some v) ∧
    (∀ j, (hj : j < acc.length) → acc[j].rowIndex = r →
      ∀ e, acc[j].endXPixel = some e → e ≤ v)

/-- Same-row spans never overlap: a later cycle's label-extended start is at
or after every earlier same-row cycle's end. -/
def ConflictFree (l : List CycleLayout) : Prop :=
  ∀ i j, (hi : i < l.length) → (hj : j < l.length) → i < j →
    l[i].rowIndex = l[j].rowIndex →
    ∀ x y, l[j].startXPixel = some x → l[i].endXPixel = some y →
      y ≤ x - l[j].labelWidth

/-- First-fit blocking: a cycle in row `k` is blocked, in every lower row,
by an earlier cycle whose `endX` strictly exceeds the cycle's effective
start. -/
def FirstFitBlocked (l : List CycleLayout) : Prop :=
  ∀ j, (hj : j < l.length) → ∀ r, r < l[j].rowIndex →
    ∃ i, ∃ (hi : i < l.length), i < j ∧ l[i].rowIndex = r ∧
      ∀ x e, l[j].startXPixel = some x → l[i].endXPixel = some e →
        x - l[j].labelWidth < e

theorem getElem_append_singleton {α : Type} (l : List α) (a : α)
    (w : l.length < (l ++ [a]).length) : (l ++ [a])[l.length] = a := by
  simp

theorem packCycles_invariant :
    ∀ (items : List PendingItem) (rows : List (Option ℚ)) (n : Nat) (acc : List CycleLayout),
    (∀ it ∈ items, GoodItem it) → PackInv rows acc → ConflictFree acc → FirstFitBlocked acc →
    ConflictFree (acc ++ (packCycles items rows n).1) ∧
      FirstFitBlocked (acc ++ (packCycles items rows n).1) := by
  intro items
  induction items with
  | nil =>
    intro rows n acc _ _ hcf hbl
    simpa [packCycles] using ⟨hcf, hbl⟩
  | cons it its ih =>
    intro rows n acc hg hinv hcf hbl
    obtain ⟨s, e, hs, he, heff, hgood⟩ := hg it (List.mem_cons_self it its)
    obtain ⟨spec1, spec2, spec3, spec4, spec5⟩ :=
      assignRow_spec rows it.effectiveStartX it.endXPixel
    set p := assignRow rows it.effectiveStartX it.endXPixel with hp
    set L : CycleLayout := ⟨it.cycle, it.inst, p.1, it.startXPixel, it.endXPixel, it.labelWidth⟩
      with hL
    have hred : (packCycles (it :: its) rows n).1 =
        L :: (packCycles its p.2 (max n (p.1 + 1))).1 := rfl
    have hLrow : L.rowIndex = p.1 := rfl
    have hLs : L.startXPixel = some s := hs
    have hLe : L.endXPixel = some e := he
    have hLlw : L.labelWidth = it.labelWidth := rfl
    -- blocked-below facts for the newly assigned row
    have hblocked : ∀ r, (hr : r < rows.length) → r < p.1 →
        ∃ v : ℚ, rows[r] = some v ∧ s - it.labelWidth < v := by
      intro r hr hrp
      obtain ⟨v, hv, _, _⟩ := hinv.2 r hr
      refine ⟨v, hv, ?_⟩
      have hfalse := spec2 r hr hrp
      rw [List.get_eq_getElem] at hfalse
      rw [hv, heff] at hfalse
      simp only [jsGeQ, decide_eq_false_iff_not] at hfalse
      exact not_le.mp hfalse
    have hfit : ∀ (hlt : p.1 < rows.length) (v : ℚ), rows[p.1] = some v →
        v ≤ s - it.labelWidth := by
      intro hlt v hv
      have htrue := spec3 hlt
      rw [List.get_eq_getElem] at htrue
      rw [hv, heff] at htrue
      simp only [jsGeQ, decide_eq_true_eq] at htrue
      exact htrue
    -- the three extended facts
    have hinv' : PackInv p.2 (acc ++ [L]) := by
      rcases Nat.lt_or_ge p.1 rows.length with hplt | hpge
      · have hrows' : p.2 = rows.set p.1 it.endXPixel := spec4 hplt
        constructor
        · intro j hj
          rw [hrows', List.length_set]
          rcases Nat.lt_or_ge j acc.length with hja | hja
          · rw [List.getElem_append_left hja]
            exact hinv.1 j hja
          · have hje : j = acc.length := by
              simp only [List.length_append, List.length_singleton] at hj
              omega
            subst hje
            rw [getElem_append_singleton]
            exact hplt
        · intro r hr
          rw [hrows', List.length_set] at hr
          by_cases hre : r = p.1
          · subst hre
            refine ⟨e, ?_, ?_, ?_⟩
            · simp only [hrows', List.getElem_set_self]
              exact he
            · exact ⟨acc.length, by simp, by simp [hLrow], by simp [hLe]⟩
            · intro j hj hjr e' he'
              rcases Nat.lt_or_ge j acc.length with hja | hja
              · rw [List.getElem_append_left hja] at hjr he'
                obtain ⟨v, hv, _, hbound⟩ := hinv.2 p.1 hplt
                have h1 := hbound j hja hjr e' he'
                have h2 := hfit hplt v hv
                linarith
              · have hje : j = acc.length := by
                  simp only [List.length_append, List.length_singleton] at hj
                  omega
                subst hje
                rw [getElem_append_singleton] at he'
                rw [hLe] at he'
                injection he' with he''
                exact he''.ge
          · obtain ⟨v, hv, ⟨jw, hjw, hjwr, hjwe⟩, hbound⟩ := hinv.2 r hr
            refine ⟨v, ?_, ?_, ?_⟩
            · simp only [hrows']
              rw [List.getElem_set_ne (by omega)]
              exact hv
            · exact ⟨jw, by simp; omega, by rw [List.getElem_append_left hjw]; exact hjwr,
                by rw [List.getElem_append_left hjw]; exact hjwe⟩
            · intro j hj hjr e' he'
              rcases Nat.lt_or_ge j acc.length with hja | hja
              · rw [List.getElem_append_left hja] at hjr he'
                exact hbound j hja hjr e' he'
              · have hje : j = acc.length := by
                  simp only [List.length_append, List.length_singleton] at hj
                  omega
                subst hje
                rw [getElem_append_singleton] at hjr
                exact absurd hjr (by rw [hLrow]; omega)
      · have hpe : p.1 = rows.length := by omega
        have hrows' : p.2 = rows ++ [it.endXPixel] := spec5 hpe
        constructor
        · intro j hj
          rw [hrows', List.length_append, List.length_singleton]
          rcases Nat.lt_or_ge j acc.length with hja | hja
          · rw [List.getElem_append_left hja]
            have := hinv.1 j hja
            omega
          · have hje : j = acc.length := by
              simp only [List.length_append, List.length_singleton] at hj
              omega
            subst hje
            rw [getElem_append_singleton, hLrow]
            omega
        · intro r hr
          rw [hrows', List.length_append, List.length_singleton] at hr
          rcases Nat.lt_or_ge r rows.length with hrlt | hrge
          · obtain ⟨v, hv, ⟨jw, hjw, hjwr, hjwe⟩, hbound⟩ := hinv.2 r hrlt
            refine ⟨v, ?_, ?_, ?_⟩
            · simp only [hrows']
              rw [List.getElem_append_left hrlt]
              exact hv
            · exact ⟨jw, by simp; omega, by rw [List.getElem_append_left hjw]; exact hjwr,
                by rw [List.getElem_append_left hjw]; exact hjwe⟩
            · intro j hj hjr e' he'
              rcases Nat.lt_or_ge j acc.length with hja | hja
              · rw [List.getElem_append_left hja] at hjr he'
                exact hbound j hja hjr e' he'
              · have hje : j = acc.length := by
                  simp only [List.length_append, List.length_singleton] at hj
                  omega
                subst hje
                rw [getElem_append_singleton] at hjr
                exact absurd hjr (by rw [hLrow]; omega)
          · have hre : r = rows.length := by omega
            subst hre
            refine ⟨e, ?_, ?_, ?_⟩
            · simp only [hrows']
              rw [getElem_append_singleton]
              exact he
            · exact ⟨acc.length, by simp, by simp [hLrow, hpe], by simp [hLe]⟩
            · intro j hj hjr e' he'
              rcases Nat.lt_or_ge j acc.length with hja | hja
              · rw [List.getElem_append_left hja] at hjr
                have := hinv.1 j hja
                omega
              · have hje : j = acc.length := by
                  simp only [List.length_append, List.length_singleton] at hj
                  omega
                subst hje
                rw [getElem_append_singleton] at he'
                rw [hLe] at he'
                injection he' with he''
                exact he''.ge
    have hcf' : ConflictFree (acc ++ [L]) := by
      intro i j hi hj hij hrow x y hx hy
      rcases Nat.lt_or_ge j acc.length with hja | hja
      · have hia : i < acc.length := by omega
        rw [List.getElem_append_left hja] at hrow hx ⊢
        rw [List.getElem_append_left hia] at hrow hy
        exact hcf i j hia hja hij hrow x y hx hy
      · have hje : j = acc.length := by
          simp only [List.length_append, List.length_singleton] at hj
          omega
        subst hje
        have hia : i < acc.length := by omega
        rw [getElem_append_singleton] at hrow hx ⊢
        rw [List.getElem_append_left hia] at hrow hy
        rw [hLrow] at hrow
        have hplt : p.1 < rows.length := by
          have := hinv.1 i hia
          omega
        obtain ⟨v, hv, _, hbound⟩ := hinv.2 p.1 hplt
        have h1 := hbound i hia hrow y hy
        have h2 := hfit hplt v hv
        rw [hLs] at hx
        injection hx with hx'
        rw [hLlw]
        linarith
    have hbl' : FirstFitBlocked (acc ++ [L]) := by
      intro j hj r hr
      rcases Nat.lt_or_ge j acc.length with hja | hja
      · rw [List.getElem_append_left hja] at hr ⊢
        obtain ⟨i, hi, hij, hir, hblk⟩ := hbl j hja r hr
        refine ⟨i, by simp; omega, hij, ?_, ?_⟩
        · rw [List.getElem_append_left hi]
          exact hir
        · intro x e' hx he'
          rw [List.getElem_append_left hi] at he'
          exact hblk x e' hx he'
      · have hje : j = acc.length := by
          simp only [List.length_append, List.length_singleton] at hj
          omega
        subst hje
        rw [getElem_append_singleton] at hr ⊢
        rw [hLrow] at hr
        have hrlt : r < rows.length := by omega
        obtain ⟨v, hv, hsltv⟩ := hblocked r hrlt hr
        obtain ⟨v', hv', ⟨jw, hjw, hjwr, hjwe⟩, _⟩ := hinv.2 r hrlt
        have hvv : v = v' := by
          rw [hv] at hv'
          injection hv'
        subst hvv
        refine ⟨jw, by simp; omega, by omega, ?_, ?_⟩
        · rw [List.getElem_append_left hjw]
          exact hjwr
        · intro x e' hx he'
          rw [List.getElem_append_left hjw] at he'
          rw [hLs] at hx
          injection hx with hx'
          rw [hjwe] at he'
          injection he' with he''
          rw [hLlw]
          linarith
    have hres := ih p.2 (max n (p.1 + 1)) (acc ++ [L])
      (fun x hx => hg x (List.mem_cons_of_mem _ hx)) hinv' hcf' hbl'
    have happ : acc ++ (packCycles (it :: its) rows n).1 =
        (acc ++ [L]) ++ (packCycles its p.2 (max n (p.1 + 1))).1 := by
      rw [hred]
      simp
    rw [happ]
    exact hres

/-- The min/max fold of `cycleMinMax`, specified: starting from real values,
the result is real, the min side only decreases and is a lower bound of every
scanned date, the max side only increases, and each side is either the seed
or the key of some scanned date. -/
theorem cycleFold_spec : ∀ (l : List EventDate) (a b : Int),
    (∀ e ∈ l, (dateKey e).isSome = true) →
    ∃ a' b',
      l.foldl (fun mm e =>
          (if jsLtD (dateKey e) mm.1 then dateKey e else mm.1,
           if jsGtD (dateKey e) mm.2 then dateKey e else mm.2))
        (some a, some b) = (some a', some b') ∧
      a' ≤ a ∧ b ≤ b' ∧
      (a' = a ∨ ∃ e ∈ l, dateKey e = some a') ∧
      (b' = b ∨ ∃ e ∈ l, dateKey e = some b') ∧
      (∀ e ∈ l, ∀ t, dateKey e = some t → a' ≤ t) := by
  intro l
  induction l with
  | nil =>
    intro a b _
    exact ⟨a, b, rfl, le_refl _, le_refl _, Or.inl rfl, Or.inl rfl, by simp⟩
  | cons e0 es ih =>
    intro a b hv
    obtain ⟨t, ht⟩ := Option.isSome_iff_exists.mp (hv e0 (List.mem_cons_self e0 es))
    have hstep : ((if jsLtD (dateKey e0) (some a) then dateKey e0 else some a),
                  (if jsGtD (dateKey e0) (some b) then dateKey e0 else some b))
        = (some (if t < a then t else a), some (if b < t then t else b)) := by
      rw [ht]
      by_cases h1 : t < a <;> by_cases h2 : b < t <;>
        simp [jsLtD, jsGtD, h1, h2]
    obtain ⟨a', b', heq, ha1, hb1, hwa, hwb, hlow⟩ :=
      ih (if t < a then t else a) (if b < t then t else b)
        (fun e he => hv e (List.mem_cons_of_mem e0 he))
    refine ⟨a', b', ?_, ?_, ?_, ?_, ?_, ?_⟩
    · rw [List.foldl_cons, hstep]
      exact heq
    · split at ha1 <;> omega
    · split at hb1 <;> omega
    · rcases hwa with h | ⟨e, he, hk⟩
      · by_cases h1 : t < a
        · rw [if_pos h1] at h
          exact Or.inr ⟨e0, List.mem_cons_self e0 es, by rw [ht, h]⟩
        · rw [if_neg h1] at h
          exact Or.inl h
      · exact Or.inr ⟨e, List.mem_cons_of_mem e0 he, hk⟩
    · rcases hwb with h | ⟨e, he, hk⟩
      · by_cases h2 : b < t
        · rw [if_pos h2] at h
          exact Or.inr ⟨e0, List.mem_cons_self e0 es, by rw [ht, h]⟩
        · rw [if_neg h2] at h
          exact Or.inl h
      · exact Or.inr ⟨e, List.mem_cons_of_mem e0 he, hk⟩
    · intro e he t' hk
      rcases List.mem_cons.mp he with he' | he'
      · subst he'
        rw [ht] at hk
        injection hk with hk'
        subst hk'
        split at ha1 <;> omega
      · exact hlow e he' t' hk

/-- With at least two dates, all of which parse, the per-cycle min/max scan
returns real values `a ≤ b`, each the parsed key of one of the cycle's
dates. -/
theorem cycleMinMax_spec (dates : List EventDate) (h2 : 2 ≤ dates.length)
    (hv : ∀ e ∈ dates, (dateKey e).isSome = true) :
    ∃ a b, cycleMinMax dates = (some a, some b) ∧ a ≤ b ∧
      (∃ ea ∈ dates, dateKey ea = some a) ∧ ∃ eb ∈ dates, dateKey eb = some b := by
  match dates, h2 with
  | d0 :: d1 :: ds, _ =>
    have hne : (d1 :: ds) ≠ [] := by simp
    set last := (d1 :: ds).getLast hne with hlast
    have hlmem : last ∈ d1 :: ds := List.getLast_mem hne
    have hlmem' : last ∈ d0 :: d1 :: ds := List.mem_cons_of_mem d0 hlmem
    obtain ⟨t0, ht0⟩ := Option.isSome_iff_exists.mp
      (hv d0 (List.mem_cons_self d0 (d1 :: ds)))
    obtain ⟨tl, htl⟩ := Option.isSome_iff_exists.mp (hv last hlmem')
    have hgl : (d0 :: d1 :: ds).getLast? = some last := by
      rw [List.getLast?_eq_getLast (d0 :: d1 :: ds) (by simp), List.getLast_cons hne]
    obtain ⟨a, b, heq, ha1, hb1, hwa, hwb, hlow⟩ :=
      cycleFold_spec (d1 :: ds) t0 tl
        (fun e he => hv e (List.mem_cons_of_mem d0 he))
    refine ⟨a, b, ?_, ?_, ?_, ?_⟩
    · have hinit : (match (d0 :: d1 :: ds).getLast? with
          | some e => dateKey e
          | none => none) = some tl := by
        rw [hgl]
        exact htl
      show (d1 :: ds).foldl _ (dateKey d0,
        match (d0 :: d1 :: ds).getLast? with
        | some e => dateKey e
        | none => none) = (some a, some b)
      rw [hinit, ht0]
      exact heq
    · have := hlow last hlmem tl htl
      omega
    · rcases hwa with h | ⟨e, he, hk⟩
      · exact ⟨d0, List.mem_cons_self d0 (d1 :: ds), by rw [ht0, h]⟩
      · exact ⟨e, List.mem_cons_of_mem d0 he, hk⟩
    · rcases hwb with h | ⟨e, he, hk⟩
      · exact ⟨last, hlmem', by rw [htl, h]⟩
      · exact ⟨e, List.mem_cons_of_mem d0 he, hk⟩

/-- The packing loop emits one layout per pending item. -/
theorem packCycles_length : ∀ (items : List PendingItem) (rows : List (Option ℚ)) (n : Nat),
    (packCycles items rows n).1.length = items.length := by
  intro items
  induction items with
  | nil => intro rows n; rfl
  | cons it its ih =>
    intro rows n
    show ((packCycles (it :: its) rows n).1).length = its.length + 1
    rw [show (packCycles (it :: its) rows n).1 =
      { cycle := it.cycle, inst := it.inst,
        rowIndex := (assignRow rows it.effectiveStartX it.endXPixel).1,
        startXPixel := it.startXPixel, endXPixel := it.endXPixel,
        labelWidth := it.labelWidth } ::
      (packCycles its (assignRow rows it.effectiveStartX it.endXPixel).2
        (max n ((assignRow rows it.effectiveStartX it.endXPixel).1 + 1))).1 from rfl]
    rw [List.length_cons, ih]

/-- Each emitted layout carries its item's span fields unchanged (the loop
only adds the row index). -/
theorem packCycles_fieldsAt : ∀ (items : List PendingItem) (rows : List (Option ℚ)) (n : Nat)
    (j : Nat) (hj : j < (packCycles items rows n).1.length),
    ∃ (hj' : j < items.length),
      (packCycles items rows n).1[j].startXPixel = items[j].startXPixel ∧
      (packCycles items rows n).1[j].endXPixel = items[j].endXPixel ∧
      (packCycles items rows n).1[j].labelWidth = items[j].labelWidth ∧
      (packCycles items rows n).1[j].cycle = items[j].cycle := by
  intro items
  induction items with
  | nil =>
    intro rows n j hj
    rw [show (packCycles [] rows n).1 = [] from rfl] at hj
    exact absurd hj (by simp)
  | cons it its ih =>
    intro rows n j hj
    have hred : (packCycles (it :: its) rows n).1 =
      { cycle := it.cycle, inst := it.inst,
        rowIndex := (assignRow rows it.effectiveStartX it.endXPixel).1,
        startXPixel := it.startXPixel, endXPixel := it.endXPixel,
        labelWidth := it.labelWidth } ::
      (packCycles its (assignRow rows it.effectiveStartX it.endXPixel).2
        (max n ((assignRow rows it.effectiveStartX it.endXPixel).1 + 1))).1 := rfl
    match j with
    | 0 =>
      refine ⟨by simp, ?_⟩
      simp only [hred]
      exact ⟨rfl, rfl, rfl, rfl⟩
    | Nat.succ j' =>
      rw [hred] at hj
      have hj2 : j' < (packCycles its (assignRow rows it.effectiveStartX it.endXPixel).2
          (max n ((assignRow rows it.effectiveStartX it.endXPixel).1 + 1))).1.length := by
        simpa using hj
      obtain ⟨hj', h1, h2, h3, h4⟩ := ih _ _ j' hj2
      refine ⟨by simpa using Nat.succ_lt_succ hj', ?_⟩
      simp only [hred]
      simpa using ⟨h1, h2, h3, h4⟩

/-- The running `maxRows` of the packing loop: it only grows, it strictly
bounds every assigned row index, and it is the seed or one more than some
assigned row index. -/
theorem packCycles_maxRows : ∀ (items : List PendingItem) (rows : List (Option ℚ)) (n : Nat),
    n ≤ (packCycles items rows n).2.2 ∧
    (∀ j (hj : j < (packCycles items rows n).1.length),
      (packCycles items rows n).1[j].rowIndex < (packCycles items rows n).2.2) ∧
    ((packCycles items rows n).2.2 = n ∨ ∃ j, ∃ (hj : j < (packCycles items rows n).1.length),
      (packCycles items rows n).2.2 = (packCycles items rows n).1[j].rowIndex + 1) := by
  intro items
  induction items with
  | nil =>
    intro rows n
    exact ⟨le_refl _, fun j hj => absurd hj (by simp [packCycles]), Or.inl rfl⟩
  | cons it its ih =>
    intro rows n
    set p := assignRow rows it.effectiveStartX it.endXPixel with hp
    have hred1 : (packCycles (it :: its) rows n).1 =
      { cycle := it.cycle, inst := it.inst, rowIndex := p.1,
        startXPixel := it.startXPixel, endXPixel := it.endXPixel,
        labelWidth := it.labelWidth } :: (packCycles its p.2 (max n (p.1 + 1))).1 := rfl
    have hred2 : (packCycles (it :: its) rows n).2.2 =
        (packCycles its p.2 (max n (p.1 + 1))).2.2 := rfl
    obtain ⟨ih1, ih2, ih3⟩ := ih p.2 (max n (p.1 + 1))
    refine ⟨?_, ?_, ?_⟩
    · rw [hred2]
      exact le_trans (le_max_left _ _) ih1
    · intro j hj
      rw [hred2]
      match j with
      | 0 =>
        simp only [hred1]
        show p.1 < _
        have : p.1 + 1 ≤ max n (p.1 + 1) := le_max_right _ _
        omega
      | Nat.succ j' =>
        simp only [hred1] at hj ⊢
        have hj2 : j' < (packCycles its p.2 (max n (p.1 + 1))).1.length := by
          simpa using hj
        have := ih2 j' hj2
        simpa using this
    · rw [hred2]
      rcases ih3 with h | ⟨j, hj, hjr⟩
      · rcases Nat.le_total n (p.1 + 1) with hc | hc
        · refine Or.inr ⟨0, by simp only [hred1]; simp, ?_⟩
          simp only [hred1]
          show _ = p.1 + 1
          omega
        · refine Or.inl ?_
          omega
      · refine Or.inr ⟨j + 1, ?_, ?_⟩
        · simp only [hred1]
          simpa using Nat.succ_lt_succ hj
        · simp only [hred1]
          simpa using hjr

/-- The empty packing state satisfies the packing invariant. -/
theorem packInv_nil : PackInv [] [] :=
  ⟨fun j hj => absurd hj (by simp), fun r hr => absurd hr (by simp)⟩

/-- An empty layout list is trivially conflict-free. -/
theorem conflictFree_nil : ConflictFree [] :=
  fun i _ hi => absurd hi (by simp)

/-- An empty layout list trivially satisfies the blocking property. -/
theorem firstFitBlocked_nil : FirstFitBlocked [] :=
  fun j hj => absurd hj (by simp)

/-- C1 (corrected).  Row packing is conflict-free *for well-formed spans*:
when every pending item has real (non-`NaN`) pixel values and its
label-extended start does not exceed its end, any two cycles that the packing
loop of `calculateConferenceLayouts` puts in the same row satisfy
`startXPixel − labelWidth ≥` the earlier cycle's `endXPixel`.  (The literal
claim, without the well-formedness proviso, is refuted by
`C1_counterexample`: clamping can produce spans with `endXPixel <
startXPixel`, and then the single `endX` tracked per row lets a later cycle
overlap an earlier one.) -/
theorem C1_conflict_free (items : List PendingItem)
    (hg : ∀ it ∈ items, GoodItem it) :
    ConflictFree (packCycles items [] 0).1 := by
  have h := packCycles_invariant items [] 0 [] hg packInv_nil conflictFree_nil firstFitBlocked_nil
  simpa using h.1

/-- Witness for `C1_conflict_free` at a concrete two-item input. -/
theorem C1_conflict_free_witness :
    ConflictFree (packCycles
      [⟨⟨[], []⟩, ⟨0, [], []⟩, some 0, some 1, 0, some 0⟩,
       ⟨⟨[], []⟩, ⟨0, [], []⟩, some 0, some 1, 0, some 0⟩] [] 0).1 := by
  refine C1_conflict_free _ ?_
  intro it hit
  have : it = ⟨⟨[], []⟩, ⟨0, [], []⟩, some 0, some 1, 0, some 0⟩ := by
    rcases List.mem_cons.mp hit with h | h
    · exact h
    · simpa using h
  subst this
  exact ⟨0, 1, rfl, rfl, by norm_num, by norm_num⟩

/-! ### C1 counterexample data: three cycles, 2025-06-01 .. 2025-06-11 range -/

/-- An unnamed cycle spanning 2025-05-12 .. 2025-05-22 (before the range). -/
def cexCycleA : ReviewCycle :=
  ⟨[], [⟨['2','0','2','5','-','0','5','-','1','2'], []⟩, ⟨['2','0','2','5','-','0','5','-','2','2'], []⟩]⟩

/-- An unnamed cycle spanning 2025-02-21 .. 2025-03-03 (before the range). -/
def cexCycleB : ReviewCycle :=
  ⟨[], [⟨['2','0','2','5','-','0','2','-','2','1'], []⟩, ⟨['2','0','2','5','-','0','3','-','0','3'], []⟩]⟩

/-- A cycle named "X" spanning 2025-04-01 .. 2025-04-10 (before the range). -/
def cexCycleC : ReviewCycle :=
  ⟨['X'], [⟨['2','0','2','5','-','0','4','-','0','1'], []⟩, ⟨['2','0','2','5','-','0','4','-','1','0'], []⟩]⟩

/-- The installment holding the three cycles above. -/
def cexInst : Installment := ⟨2025, [], [cexCycleA, cexCycleB, cexCycleC]⟩

/-- The conference holding `cexInst`. -/
def cexConf : Conference := ⟨['c'], ['C'], ['C'], [cexInst]⟩

set_option maxRecDepth 16000 in
/-- Pending item of `cexCycleA` at `minDate` 2025-06-01, 10 days, 10 px:
start clamps to 0, end stays at the unclamped −10. -/
theorem cexItemA : cycleItem 1748736000000 10 10 cexInst cexCycleA =
    some ⟨cexCycleA, cexInst, some 0, some (-10), 0, some 0⟩ := by
  have hmm : cycleMinMax cexCycleA.dates = (some 1747008000000, some 1747872000000) := by
    decide
  have hd1 : diffDays 1748736000000 1747008000000 = -20 := by
    rw [diffDays_midnight _ _ (by decide) (by decide)]
    decide
  have hd2 : diffDays 1748736000000 1747872000000 = -10 := by
    rw [diffDays_midnight _ _ (by decide) (by decide)]
    decide
  have hmax : max (0:Int) (-20) = 0 := by decide
  have hmin : min (10:Int) (-10) = -10 := by decide
  simp only [cycleItem, hmm, hd1, hd2, hmax, hmin, Option.map_some]
  norm_num [cexCycleA, hd1, hd2]

set_option maxRecDepth 16000 in
/-- Pending item of `cexCycleB`: start clamps to 0, end −90. -/
theorem cexItemB : cycleItem 1748736000000 10 10 cexInst cexCycleB =
    some ⟨cexCycleB, cexInst, some 0, some (-90), 0, some 0⟩ := by
  have hmm : cycleMinMax cexCycleB.dates = (some 1740096000000, some 1740960000000) := by
    decide
  have hd1 : diffDays 1748736000000 1740096000000 = -100 := by
    rw [diffDays_midnight _ _ (by decide) (by decide)]
    decide
  have hd2 : diffDays 1748736000000 1740960000000 = -90 := by
    rw [diffDays_midnight _ _ (by decide) (by decide)]
    decide
  have hmax : max (0:Int) (-100) = 0 := by decide
  have hmin : min (10:Int) (-90) = -90 := by decide
  simp only [cycleItem, hmm, hd1, hd2, hmax, hmin, Option.map_some]
  norm_num [cexCycleB, hd1, hd2]

set_option maxRecDepth 16000 in
/-- Pending item of `cexCycleC` (label width `8·1+15 = 23`): start clamps
to 0, end −52, effective start −23. -/
theorem cexItemC : cycleItem 1748736000000 10 10 cexInst cexCycleC =
    some ⟨cexCycleC, cexInst, some 0, some (-52), 23, some (-23)⟩ := by
  have hmm : cycleMinMax cexCycleC.dates = (some 1743465600000, some 1744243200000) := by
    decide
  have hd1 : diffDays 1748736000000 1743465600000 = -61 := by
    rw [diffDays_midnight _ _ (by decide) (by decide)]
    decide
  have hd2 : diffDays 1748736000000 1744243200000 = -52 := by
    rw [diffDays_midnight _ _ (by decide) (by decide)]
    decide
  have hmax : max (0:Int) (-61) = 0 := by decide
  have hmin : min (10:Int) (-52) = -52 := by decide
  simp only [cycleItem, hmm, hd1, hd2, hmax, hmin, Option.map_some]
  norm_num [cexCycleC, hd1, hd2]

/-- The pending items of `cexConf` in dataset order. -/
theorem cexItems : conferenceItems cexConf 1748736000000 10 10 =
    [⟨cexCycleA, cexInst, some 0, some (-10), 0, some 0⟩,
     ⟨cexCycleB, cexInst, some 0, some (-90), 0, some 0⟩,
     ⟨cexCycleC, cexInst, some 0, some (-52), 23, some (-23)⟩] := by
  simp only [conferenceItems, show cexConf.installments = [cexInst] from rfl,
    show cexInst.cycles = [cexCycleA, cexCycleB, cexCycleC] from rfl,
    List.flatMap_cons, List.flatMap_nil, List.append_nil,
    List.filterMap_cons, cexItemA, cexItemB, cexItemC, List.filterMap_nil]

/-- All three cycles land in row 0: the row's `endX` only remembers the most
recent occupant, which keeps shrinking (−10, then −90), so `cexCycleC` with
effective start −23 is accepted into the row although it overlaps
`cexCycleA`. -/
theorem cexPacked : (packCycles (conferenceItems cexConf 1748736000000 10 10) [] 0).1 =
    [⟨cexCycleA, cexInst, 0, some 0, some (-10), 0⟩,
     ⟨cexCycleB, cexInst, 0, some 0, some (-90), 0⟩,
     ⟨cexCycleC, cexInst, 0, some 0, some (-52), 23⟩] := by
  have hq1 : jsGeQ (some (0:ℚ)) (some (-10)) = true := by
    simp only [jsGeQ]
    norm_num
  have hq2 : jsGeQ (some (-23:ℚ)) (some (-90)) = true := by
    simp only [jsGeQ]
    norm_num
  rw [cexItems]
  simp [packCycles, assignRow, hq1, hq2]

/-- C1 counterexample: on `cexConf` with the 10-day timeline starting
2025-06-01, the layout engine of `calculateConferenceLayouts` produces
overlapping same-row spans — cycle C (label-extended start −23) sits in
row 0 after cycle A whose span ends at −10, refuting the unconditional
conflict-freedom claim. -/
theorem C1_counterexample :
    ¬ ConflictFree (calculateConferenceLayoutOne cexConf 1748736000000 10 10).cycleLayouts := by
  have hlay : (calculateConferenceLayoutOne cexConf 1748736000000 10 10).cycleLayouts =
      [⟨cexCycleA, cexInst, 0, some 0, some (-10), 0⟩,
       ⟨cexCycleB, cexInst, 0, some 0, some (-90), 0⟩,
       ⟨cexCycleC, cexInst, 0, some 0, some (-52), 23⟩] := by
    show (packCycles (conferenceItems cexConf 1748736000000 10 10) [] 0).1 = _
    exact cexPacked
  intro h
  rw [hlay] at h
  have := h 0 2 (by norm_num) (by norm_num) (by norm_num) rfl 0 (-10) rfl rfl
  norm_num at this

/-- Does item `i`'s label-extended pixel interval `[startX − labelWidth, endX]`
contain the horizontal position `x`?  `false` for out-of-range indices and
`NaN` pixel values. -/
def coversIdx (items : List PendingItem) (x : ℚ) (i : Nat) : Bool :=
  match items[i]? with
  | some it =>
    match it.startXPixel, it.endXPixel with
    | some s, some e => decide (s - it.labelWidth ≤ x ∧ x ≤ e)
    | _, _ => false
  | none => false

/-- C2 (corrected).  The greedy bound holds for well-formed spans *processed
in non-decreasing order of label-extended start*: the row count produced by
the packing loop (`maxRows`) is at most the number of the conference's
cycles whose label-extended pixel intervals simultaneously contain some
horizontal position.  (The code packs in dataset order without sorting, and
the bound fails for unsorted input: `C2_counterexample`.) -/
theorem C2_greedy_row_bound (items : List PendingItem)
    (hg : ∀ it ∈ items, GoodItem it)
    (hsorted : ∀ i j, (hi : i < items.length) → (hj : j < items.length) → i ≤ j →
      ∀ si sj, items[i].startXPixel = some si → items[j].startXPixel = some sj →
        si - items[i].labelWidth ≤ sj - items[j].labelWidth) :
    ∃ x : ℚ, (packCycles items [] 0).2.2 ≤
      ((Finset.range items.length).filter (fun i => coversIdx items x i = true)).card := by
  obtain ⟨-, hbound, hcases⟩ := packCycles_maxRows items [] 0
  rcases hcases with h0 | ⟨J, hJ, hRJ⟩
  · exact ⟨0, by rw [h0]; exact Nat.zero_le _⟩
  have hlen : (packCycles items [] 0).1.length = items.length := packCycles_length items [] 0
  have hFFB : FirstFitBlocked (packCycles items [] 0).1 := by
    have h := packCycles_invariant items [] 0 [] hg packInv_nil conflictFree_nil
      firstFitBlocked_nil
    simpa using h.2
  obtain ⟨hJ', hsJ, heJ, hlJ, -⟩ := packCycles_fieldsAt items [] 0 J hJ
  obtain ⟨sJ, eJ, hsJ', heJ', heffJ, hgoodJ⟩ := hg items[J] (List.getElem_mem hJ')
  have hcover : ∀ r, r < (packCycles items [] 0).1[J].rowIndex + 1 → ∃ i, i < items.length ∧
      (∃ (hil : i < (packCycles items [] 0).1.length), (packCycles items [] 0).1[i].rowIndex = r) ∧
      coversIdx items (sJ - items[J].labelWidth) i = true := by
    intro r hr
    rcases Nat.lt_or_ge r ((packCycles items [] 0).1[J].rowIndex) with hlt | hge
    · obtain ⟨i, hil, hiJ, hir, hblk⟩ := hFFB J hJ r hlt
      obtain ⟨hi', hsi, hei, hli, -⟩ := packCycles_fieldsAt items [] 0 i hil
      obtain ⟨si, ei, hsi', hei', heffi, hgoodi⟩ := hg items[i] (List.getElem_mem hi')
      have hxe : sJ - items[J].labelWidth < ei := by
        have h := hblk sJ ei (by rw [hsJ]; exact hsJ') (by rw [hei]; exact hei')
        rw [hlJ] at h
        exact h
      have hsx : si - items[i].labelWidth ≤ sJ - items[J].labelWidth :=
        hsorted i J hi' hJ' (le_of_lt hiJ) si sJ hsi' hsJ'
      refine ⟨i, hi', ⟨hil, hir⟩, ?_⟩
      simp only [coversIdx, List.getElem?_eq_getElem hi', hsi', hei', decide_eq_true_eq]
      exact ⟨hsx, le_of_lt hxe⟩
    · have hre : (packCycles items [] 0).1[J].rowIndex = r := by omega
      refine ⟨J, hJ', ⟨hJ, hre⟩, ?_⟩
      simp only [coversIdx, List.getElem?_eq_getElem hJ', hsJ', heJ', decide_eq_true_eq]
      exact ⟨le_refl _, hgoodJ⟩
  have hcover' : ∀ r : ℕ, ∃ i, r < (packCycles items [] 0).1[J].rowIndex + 1 →
      (i < items.length ∧
       (∃ (hil : i < (packCycles items [] 0).1.length),
         (packCycles items [] 0).1[i].rowIndex = r) ∧
       coversIdx items (sJ - items[J].labelWidth) i = true) := by
    intro r
    by_cases h : r < (packCycles items [] 0).1[J].rowIndex + 1
    · obtain ⟨i, hi⟩ := hcover r h
      exact ⟨i, fun _ => hi⟩
    · exact ⟨0, fun hc => absurd hc h⟩
  choose f hf using hcover'
  refine ⟨sJ - items[J].labelWidth, ?_⟩
  rw [hRJ]
  have hle : (Finset.range ((packCycles items [] 0).1[J].rowIndex + 1)).card ≤
      ((Finset.range items.length).filter
        (fun i => coversIdx items (sJ - items[J].labelWidth) i = true)).card := by
    apply Finset.card_le_card_of_injOn f
    · intro a ha
      have haR := Finset.mem_range.mp ha
      obtain ⟨h1, h2, h3⟩ := hf a haR
      exact Finset.mem_filter.mpr ⟨Finset.mem_range.mpr h1, h3⟩
    · intro a ha b hb hab
      simp only [Finset.coe_range, Set.mem_Iio] at ha hb
      obtain ⟨-, ⟨hila, hrowa⟩, -⟩ := hf a ha
      obtain ⟨-, ⟨hilb, hrowb⟩, -⟩ := hf b hb
      simp only [hab] at hrowa
      exact hrowa.symm.trans hrowb
  simpa using hle

/-- Witness for `C2_greedy_row_bound` at a concrete two-item input: both
rows used, and both intervals contain the position 0. -/
theorem C2_greedy_row_bound_witness :
    ∃ x : ℚ, (packCycles
      [⟨⟨[], []⟩, ⟨0, [], []⟩, some 0, some 1, 0, some 0⟩,
       ⟨⟨[], []⟩, ⟨0, [], []⟩, some 0, some 1, 0, some 0⟩] [] 0).2.2 ≤
      ((Finset.range ([⟨⟨[], []⟩, ⟨0, [], []⟩, some 0, some 1, 0, some 0⟩,
        ⟨⟨[], []⟩, ⟨0, [], []⟩, some 0, some 1, 0, some 0⟩] : List PendingItem).length).filter
        (fun i => coversIdx [⟨⟨[], []⟩, ⟨0, [], []⟩, some 0, some 1, 0, some 0⟩,
          ⟨⟨[], []⟩, ⟨0, [], []⟩, some 0, some 1, 0, some 0⟩] x i = true)).card := by
  apply C2_greedy_row_bound
  · intro it hit
    have : it = (⟨⟨[], []⟩, ⟨0, [], []⟩, some 0, some 1, 0, some 0⟩ : PendingItem) := by
      rcases List.mem_cons.mp hit with h | h
      · exact h
      · simpa using h
    subst this
    exact ⟨0, 1, rfl, rfl, by norm_num, by norm_num⟩
  · intro i j hi hj hij si sj hsi hsj
    simp only [List.length_cons, List.length_nil] at hi hj
    interval_cases i <;> interval_cases j <;>
      simp only [List.getElem_cons_zero, List.getElem_cons_succ] at hsi hsj ⊢ <;>
      (injection hsi with hsi; injection hsj with hsj; subst hsi; subst hsj; norm_num)

/-! ### C2 counterexample data: four unsorted cycles, 2024-12-01 + 90 days -/

/-- Cycle with pixel interval [31, 41]. -/
def cx2CycleA : ReviewCycle :=
  ⟨[], [⟨['2','0','2','5','-','0','1','-','0','1'], []⟩, ⟨['2','0','2','5','-','0','1','-','1','1'], []⟩]⟩

/-- Cycle with pixel interval [36, 81]. -/
def cx2CycleB : ReviewCycle :=
  ⟨[], [⟨['2','0','2','5','-','0','1','-','0','6'], []⟩, ⟨['2','0','2','5','-','0','2','-','2','0'], []⟩]⟩

/-- Cycle with pixel interval [51, 61]. -/
def cx2CycleC : ReviewCycle :=
  ⟨[], [⟨['2','0','2','5','-','0','1','-','2','1'], []⟩, ⟨['2','0','2','5','-','0','1','-','3','1'], []⟩]⟩

/-- Cycle with pixel interval [43, 49]. -/
def cx2CycleD : ReviewCycle :=
  ⟨[], [⟨['2','0','2','5','-','0','1','-','1','3'], []⟩, ⟨['2','0','2','5','-','0','1','-','1','9'], []⟩]⟩

/-- The installment holding the four cycles above, in dataset order. -/
def cx2Inst : Installment := ⟨2025, [], [cx2CycleA, cx2CycleB, cx2CycleC, cx2CycleD]⟩

/-- The conference holding `cx2Inst`. -/
def cx2Conf : Conference := ⟨['d'], ['D'], ['D'], [cx2Inst]⟩

set_option maxRecDepth 16000 in
/-- Pending item of `cx2CycleA` at 2024-12-01 + 90 days, 90 px. -/
theorem cx2ItemA : cycleItem 1733011200000 90 90 cx2Inst cx2CycleA =
    some ⟨cx2CycleA, cx2Inst, some 31, some 41, 0, some 31⟩ := by
  have hmm : cycleMinMax cx2CycleA.dates = (some 1735689600000, some 1736553600000) := by
    decide
  have hd1 : diffDays 1733011200000 1735689600000 = 31 := by
    rw [diffDays_midnight _ _ (by decide) (by decide)]
    decide
  have hd2 : diffDays 1733011200000 1736553600000 = 41 := by
    rw [diffDays_midnight _ _ (by decide) (by decide)]
    decide
  have hmax : max (0:Int) 31 = 31 := by decide
  have hmin : min (90:Int) 41 = 41 := by decide
  simp only [cycleItem, hmm, hd1, hd2, hmax, hmin, Option.map_some]
  norm_num [cx2CycleA, hd1, hd2]

set_option maxRecDepth 16000 in
/-- Pending item of `cx2CycleB`. -/
theorem cx2ItemB : cycleItem 1733011200000 90 90 cx2Inst cx2CycleB =
    some ⟨cx2CycleB, cx2Inst, some 36, some 81, 0, some 36⟩ := by
  have hmm : cycleMinMax cx2CycleB.dates = (some 1736121600000, some 1740009600000) := by
    decide
  have hd1 : diffDays 1733011200000 1736121600000 = 36 := by
    rw [diffDays_midnight _ _ (by decide) (by decide)]
    decide
  have hd2 : diffDays 1733011200000 1740009600000 = 81 := by
    rw [diffDays_midnight _ _ (by decide) (by decide)]
    decide
  have hmax : max (0:Int) 36 = 36 := by decide
  have hmin : min (90:Int) 81 = 81 := by decide
  simp only [cycleItem, hmm, hd1, hd2, hmax, hmin, Option.map_some]
  norm_num [cx2CycleB, hd1, hd2]

set_option maxRecDepth 16000 in
/-- Pending item of `cx2CycleC`. -/
theorem cx2ItemC : cycleItem 1733011200000 90 90 cx2Inst cx2CycleC =
    some ⟨cx2CycleC, cx2Inst, some 51, some 61, 0, some 51⟩ := by
  have hmm : cycleMinMax cx2CycleC.dates = (some 1737417600000, some 1738281600000) := by
    decide
  have hd1 : diffDays 1733011200000 1737417600000 = 51 := by
    rw [diffDays_midnight _ _ (by decide) (by decide)]
    decide
  have hd2 : diffDays 1733011200000 1738281600000 = 61 := by
    rw [diffDays_midnight _ _ (by decide) (by decide)]
    decide
  have hmax : max (0:Int) 51 = 51 := by decide
  have hmin : min (90:Int) 61 = 61 := by decide
  simp only [cycleItem, hmm, hd1, hd2, hmax, hmin, Option.map_some]
  norm_num [cx2CycleC, hd1, hd2]

set_option maxRecDepth 16000 in
/-- Pending item of `cx2CycleD`. -/
theorem cx2ItemD : cycleItem 1733011200000 90 90 cx2Inst cx2CycleD =
    some ⟨cx2CycleD, cx2Inst, some 43, some 49, 0, some 43⟩ := by
  have hmm : cycleMinMax cx2CycleD.dates = (some 1736726400000, some 1737244800000) := by
    decide
  have hd1 : diffDays 1733011200000 1736726400000 = 43 := by
    rw [diffDays_midnight _ _ (by decide) (by decide)]
    decide
  have hd2 : diffDays 1733011200000 1737244800000 = 49 := by
    rw [diffDays_midnight _ _ (by decide) (by decide)]
    decide
  have hmax : max (0:Int) 43 = 43 := by decide
  have hmin : min (90:Int) 49 = 49 := by decide
  simp only [cycleItem, hmm, hd1, hd2, hmax, hmin, Option.map_some]
  norm_num [cx2CycleD, hd1, hd2]

/-- The pending items of `cx2Conf` in dataset order. -/
theorem cx2Items : conferenceItems cx2Conf 1733011200000 90 90 =
    [⟨cx2CycleA, cx2Inst, some 31, some 41, 0, some 31⟩,
     ⟨cx2CycleB, cx2Inst, some 36, some 81, 0, some 36⟩,
     ⟨cx2CycleC, cx2Inst, some 51, some 61, 0, some 51⟩,
     ⟨cx2CycleD, cx2Inst, some 43, some 49, 0, some 43⟩] := by
  simp only [conferenceItems, show cx2Conf.installments = [cx2Inst] from rfl,
    show cx2Inst.cycles = [cx2CycleA, cx2CycleB, cx2CycleC, cx2CycleD] from rfl,
    List.flatMap_cons, List.flatMap_nil, List.append_nil,
    List.filterMap_cons, cx2ItemA, cx2ItemB, cx2ItemC, cx2ItemD, List.filterMap_nil]

/-- C2 counterexample: on `cx2Conf` the packing loop uses 3 rows (intervals
[31,41] row 0, [36,81] row 1, [51,61] row 0, [43,49] row 2), but no
horizontal position is contained in more than 2 of the four label-extended
intervals — the unsorted first-fit packing exceeds the claimed bound. -/
theorem C2_counterexample :
    (packCycles (conferenceItems cx2Conf 1733011200000 90 90) [] 0).2.2 = 3 ∧
    ∀ x : ℚ, ((Finset.range (conferenceItems cx2Conf 1733011200000 90 90).length).filter
      (fun i => coversIdx (conferenceItems cx2Conf 1733011200000 90 90) x i = true)).card ≤ 2 := by
  have hq1 : jsGeQ (some (36:ℚ)) (some 41) = false := by
    simp only [jsGeQ]
    norm_num
  have hq2 : jsGeQ (some (51:ℚ)) (some 41) = true := by
    simp only [jsGeQ]
    norm_num
  have hq3 : jsGeQ (some (43:ℚ)) (some 61) = false := by
    simp only [jsGeQ]
    norm_num
  have hq4 : jsGeQ (some (43:ℚ)) (some 81) = false := by
    simp only [jsGeQ]
    norm_num
  constructor
  · rw [cx2Items]
    simp [packCycles, assignRow, hq1, hq2, hq3, hq4]
  · intro x
    rw [cx2Items]
    set L : List PendingItem :=
      [⟨cx2CycleA, cx2Inst, some 31, some 41, 0, some 31⟩,
       ⟨cx2CycleB, cx2Inst, some 36, some 81, 0, some 36⟩,
       ⟨cx2CycleC, cx2Inst, some 51, some 61, 0, some 51⟩,
       ⟨cx2CycleD, cx2Inst, some 43, some 49, 0, some 43⟩] with hL
    have hc0 : coversIdx L x 0 = true → 31 ≤ x ∧ x ≤ 41 := by
      simp only [hL, coversIdx, List.getElem?_cons_zero, decide_eq_true_eq]
      intro h
      constructor <;> linarith [h.1, h.2]
    have hc2 : coversIdx L x 2 = true → 51 ≤ x ∧ x ≤ 61 := by
      simp only [hL, coversIdx, List.getElem?_cons_succ, List.getElem?_cons_zero,
        decide_eq_true_eq]
      intro h
      constructor <;> linarith [h.1, h.2]
    have hc3 : coversIdx L x 3 = true → 43 ≤ x ∧ x ≤ 49 := by
      simp only [hL, coversIdx, List.getElem?_cons_succ, List.getElem?_cons_zero,
        decide_eq_true_eq]
      intro h
      constructor <;> linarith [h.1, h.2]
    have hlen : L.length = 4 := by simp [hL]
    rw [hlen]
    have hb : ((Finset.range 4).filter (fun i => coversIdx L x i = true)).card =
        (if coversIdx L x 0 = true then 1 else 0) + (if coversIdx L x 1 = true then 1 else 0) +
        (if coversIdx L x 2 = true then 1 else 0) + (if coversIdx L x 3 = true then 1 else 0) := by
      rw [Finset.card_filter]
      rw [show (4:ℕ) = 3+1 from rfl, Finset.sum_range_succ]
      rw [show (3:ℕ) = 2+1 from rfl, Finset.sum_range_succ]
      rw [show (2:ℕ) = 1+1 from rfl, Finset.sum_range_succ, Finset.sum_range_one]
    rw [hb]
    have hone : (if coversIdx L x 0 = true then 1 else 0) +
        (if coversIdx L x 2 = true then 1 else 0) +
        (if coversIdx L x 3 = true then (1:ℕ) else 0) ≤ 1 := by
      by_cases h0 : coversIdx L x 0 = true <;>
        by_cases h2 : coversIdx L x 2 = true <;>
        by_cases h3 : coversIdx L x 3 = true <;>
        simp only [h0, h2, h3, if_true, if_false]
      · exfalso; linarith [(hc0 h0).2, (hc2 h2).1]
      · exfalso; linarith [(hc0 h0).2, (hc2 h2).1]
      · exfalso; linarith [(hc0 h0).2, (hc3 h3).1]
      · norm_num
      · exfalso; linarith [(hc2 h2).1, (hc3 h3).2]
      · norm_num
      · norm_num
      · norm_num
    have h1le : (if coversIdx L x 1 = true then (1:ℕ) else 0) ≤ 1 := by
      split <;> norm_num
    calc (if coversIdx L x 0 = true then 1 else 0) + (if coversIdx L x 1 = true then 1 else 0) +
        (if coversIdx L x 2 = true then 1 else 0) + (if coversIdx L x 3 = true then (1:ℕ) else 0)
        = ((if coversIdx L x 0 = true then 1 else 0) + (if coversIdx L x 2 = true then 1 else 0) +
          (if coversIdx L x 3 = true then 1 else 0)) +
          (if coversIdx L x 1 = true then 1 else 0) := by ring
      _ ≤ 1 + 1 := Nat.add_le_add hone h1le
      _ = 2 := rfl

/-- C3 (corrected).  For every token that matches the `YYYY-MM-DD` pattern
with optional trailing `?`, `parseDate` returns `Date.UTC(Y, M−1, D)` of the
literal fields (UTC midnight) together with `isUncertain` true exactly when
the token ends in `?`.  The claimed failure path does not exist:
`parseDate` performs no format validation and never throws, and
`C3_counterexample` exhibits a non-matching token that still parses to a
valid date instead of failing with `InvalidDateFormat`. -/
theorem C3_parse_matching_tokens (s : List Char) (h : matchesDatePattern s = true) :
    ∃ y m d u, y ≤ 9999 ∧ m ≤ 99 ∧ d ≤ 99 ∧ s = dateToken y m d u ∧
      parseDate s = (dateUTC (y : Int) ((m : Int) - 1) (d : Int), u) ∧
      (u = true ↔ jsEndsWithQ s = true) := by
  obtain ⟨y, m, d, u, hy, hm, hd, hs⟩ := matchesDatePattern_complete s h
  refine ⟨y, m, d, u, hy, hm, hd, hs, ?_, ?_⟩
  · rw [hs]
    exact parseDate_dateToken y m d u hy hm hd
  · rw [hs, jsEndsWithQ_dateToken]

/-- Witness for `C3_parse_matching_tokens` at the concrete token
"2025-03-31?". -/
theorem C3_parse_matching_tokens_witness :
    ∃ y m d u, y ≤ 9999 ∧ m ≤ 99 ∧ d ≤ 99 ∧
      ['2','0','2','5','-','0','3','-','3','1','?'] = dateToken y m d u ∧
      parseDate ['2','0','2','5','-','0','3','-','3','1','?'] =
        (dateUTC (y : Int) ((m : Int) - 1) (d : Int), u) ∧
      (u = true ↔ jsEndsWithQ ['2','0','2','5','-','0','3','-','3','1','?'] = true) :=
  C3_parse_matching_tokens ['2','0','2','5','-','0','3','-','3','1','?'] (by decide)

set_option maxRecDepth 16000 in
/-- C3 counterexample: the token "2025-1-5" does not match the schema
pattern, yet `parseDate` does not fail — it returns the valid date
2025-01-05 UTC midnight. -/
theorem C3_counterexample :
    matchesDatePattern ['2','0','2','5','-','1','-','5'] = false ∧
    (parseDate ['2','0','2','5','-','1','-','5']).1 = some 1736035200000 := by
  constructor
  · decide
  · decide

/-! ### C4: the aliased-padding bug of `calculateTimelineDateRange` -/

/-- The single event date 2025-03-31 of the C4 dataset. -/
def c4Event : EventDate := ⟨['2','0','2','5','-','0','3','-','3','1'], []⟩

/-- A dataset whose only event is `c4Event`; the min and max scan then
alias the same `Date` object. -/
def c4Conf : Conference := ⟨['x'], ['X'], ['X'], [⟨2025, [], [⟨[], [c4Event]⟩]⟩]⟩

set_option maxRecDepth 16000 in
/-- C4 (code bug).  With a single event date 2025-03-31, `minDate` and
`maxDate` alias the same `Date` object, so all four padding mutations hit
that one object: `setUTCMonth(getUTCMonth()-1)` turns 2025-03-31 into
2025-03-03 (day-of-month 31 overflows February), `setUTCDate(1)` gives
2025-03-01, then the max-side `setUTCMonth(getUTCMonth()+1); setUTCDate(1)`
lands on 2025-04-01.  The returned range is `(2025-04-01, 2025-04-01, 0)`:
`minDate` is *after* the only event (violating "strictly before the earliest
event date" and the one-month buffer) and the day span is 0, not positive. -/
theorem C4_divergence :
    dateKey c4Event = some 1743379200000 ∧
    calculateTimelineDateRange [c4Conf] = (1743465600000, 1743465600000, 0) ∧
    ¬((calculateTimelineDateRange [c4Conf]).1 < 1743379200000) ∧
    ¬(0 < (calculateTimelineDateRange [c4Conf]).2.2) := by
  have hst : rangeScan (allEventDates [c4Conf]) = (1743379200000, 1743379200000, 2, 2) := by
    decide
  have hv4 : jsSetUTCDate (jsSetUTCMonth
      (jsSetUTCDate (jsSetUTCMonth 1743379200000 (jsGetUTCMonth 1743379200000 - 1)) 1)
      (jsGetUTCMonth (jsSetUTCDate (jsSetUTCMonth 1743379200000
        (jsGetUTCMonth 1743379200000 - 1)) 1) + 1)) 1 = 1743465600000 := by
    decide
  have hdd : diffDays 1743465600000 1743465600000 = 0 := by
    rw [diffDays_midnight _ _ (by decide) (by decide)]
    decide
  have hmain : calculateTimelineDateRange [c4Conf] = (1743465600000, 1743465600000, 0) := by
    simp only [calculateTimelineDateRange, hst, hv4, hdd, if_true]
  refine ⟨by decide, hmain, ?_, ?_⟩
  · rw [hmain]
    decide
  · rw [hmain]
    decide

/-- C5 (confirmed).  The segment loop of `renderConferenceCycles` emits a
bar for a consecutive pair of event dates **iff** both dates parse, the pair
has strictly positive duration, it overlaps the timeline
(`end > minDate` and `start < maxDate`), the day offsets clamped to
`[0, totalTimelineDays]` leave a non-empty interval, and the resulting pixel
width is at least 1.  Pairs failing any test are silently skipped (the
function totally returns `none` — no error), and every emitted bar has
width ≥ 1: sub-1-pixel widths are dropped, not floored up to 1. -/
theorem C5_segment_filter (minDate maxDate totalTimelineDays : Int) (W : ℚ)
    (a b : EventDate) :
    ((segmentRect minDate maxDate totalTimelineDays W a b).isSome = true ↔
      ∃ ts te, (parseDate a.date).1 = some ts ∧ (parseDate b.date).1 = some te ∧
        ts < te ∧ minDate < te ∧ ts < maxDate ∧
        max 0 (diffDays minDate ts) < min totalTimelineDays (diffDays minDate te) ∧
        1 ≤ ((min totalTimelineDays (diffDays minDate te) -
              max 0 (diffDays minDate ts) : Int) : ℚ) / (totalTimelineDays : ℚ) * W) ∧
    ∀ x w, segmentRect minDate maxDate totalTimelineDays W a b = some (x, w) → 1 ≤ w := by
  constructor
  · rcases hpa : (parseDate a.date).1 with _ | ts <;>
      rcases hpb : (parseDate b.date).1 with _ | te
    · simp [segmentRect, hpa, hpb]
    · simp [segmentRect, hpa, hpb]
    · simp [segmentRect, hpa, hpb]
    · simp only [segmentRect, hpa, hpb]
      constructor
      · intro h
        split_ifs at h with h1 h2 h3
        · exact ⟨ts, te, rfl, rfl, h1.1, h1.2.1, h1.2.2, h2, h3⟩
        · simp at h
        · simp at h
        · simp at h
      · rintro ⟨ts', te', hts, hte, hlt, hmine, hmaxs, hclamp, hw⟩
        injection hts with hts'
        injection hte with hte'
        subst hts'
        subst hte'
        rw [if_pos ⟨hlt, hmine, hmaxs⟩, if_pos hclamp, if_pos hw]
        rfl
  · intro x w h
    rcases hpa : (parseDate a.date).1 with _ | ts
    · exact absurd h (by simp [segmentRect, hpa])
    rcases hpb : (parseDate b.date).1 with _ | te
    · exact absurd h (by simp [segmentRect, hpa, hpb])
    simp only [segmentRect, hpa, hpb] at h
    split_ifs at h with h1 h2 h3
    · injection h with h'
      rw [Prod.mk.injEq] at h'
      rw [← h'.2]
      exact h3

/-- C6 (confirmed).  The Scale Calculator: the initial visible window is 3
months when the viewport is below the 768-pixel breakpoint and 12 months
otherwise, measured in days from `today` via the calendar
(`setUTCMonth(getUTCMonth()+k)`); `pixelsPerDay` is the scroll-surface
width divided by that day count (the window is always a positive number of
days, so the division branch is the one taken); and the total pixel width is
`totalTimelineDays * pixelsPerDay`. -/
theorem C6_scale_formula (totalTimelineDays today : Int)
    (scrollContainerWidth innerWidth : ℚ) :
    initialViewDaysOf today innerWidth =
      diffDays today (jsSetUTCMonth today (jsGetUTCMonth today +
        (if innerWidth < 768 then 3 else 12))) ∧
    calculateSvgDimensions totalTimelineDays today scrollContainerWidth innerWidth =
      ((totalTimelineDays : ℚ) *
        (scrollContainerWidth / (initialViewDaysOf today innerWidth : ℚ)),
       scrollContainerWidth / (initialViewDaysOf today innerWidth : ℚ)) :=
  ⟨rfl, calculateSvgDimensions_eq totalTimelineDays today scrollContainerWidth innerWidth⟩

/-- C7 (confirmed).  The layout pass is deterministic and idempotent: the
embedding of `renderTimeline`'s calculation phase is a pure function of the
conference data, the visibility filter, `today`, and the two widths.  Every
piece of state the JS mutates (the `Date` objects, `conferenceRows`,
`cycleLayouts`, the packing row lists) is created afresh inside the call and
returned, never carried over, so re-running on identical inputs returns the
identical ranges, dimensions, row assignments and row counts. -/
theorem C7_pipeline_idempotent (conferenceData : List Conference)
    (visibleConferenceNames : List (List Char)) (today : Int)
    (innerWidth scrollContainerWidth : ℚ) :
    renderTimelinePipeline conferenceData visibleConferenceNames today
        innerWidth scrollContainerWidth =
      renderTimelinePipeline conferenceData visibleConferenceNames today
        innerWidth scrollContainerWidth := rfl

/-- C9 (confirmed).  The Scale Calculator's division is guarded: the code
computes `pixelsPerDay = scrollContainerWidth / initialViewDays` only under
the test `0 < initialViewDays` and otherwise falls back to the constant 1 —
and the guard in fact always takes the division branch, because the
initial-view day count is strictly positive for every `today` timestamp. -/
theorem C9_scale_division_guarded (totalTimelineDays today : Int)
    (scrollContainerWidth innerWidth : ℚ) :
    0 < initialViewDaysOf today innerWidth ∧
    (calculateSvgDimensions totalTimelineDays today scrollContainerWidth innerWidth).2 =
      (if 0 < initialViewDaysOf today innerWidth then
        scrollContainerWidth / (initialViewDaysOf today innerWidth : ℚ)
       else 1) :=
  ⟨initialViewDaysOf_pos today innerWidth, rfl⟩

/-- C8 (confirmed).  The load-time sort: every cycle of the dataset appears
in the output of `sortConferenceDataDates` as `sortCycleDates` of itself (in
place, same conference and installment); the sort changes no cycle's name,
adds/removes/alters no `EventDate` (the dates are a permutation of the
originals); and for a cycle whose tokens all parse, the resulting dates are
non-decreasing by parsed date value. -/
theorem C8_load_sort (data : List Conference) (conf : Conference) (inst : Installment)
    (c : ReviewCycle) (hconf : conf ∈ data) (hinst : inst ∈ conf.installments)
    (hc : c ∈ inst.cycles) :
    (∃ conf' ∈ sortConferenceDataDates data, ∃ inst' ∈ conf'.installments,
      sortCycleDates c ∈ inst'.cycles) ∧
    (sortCycleDates c).name = c.name ∧
    (sortCycleDates c).dates.Perm c.dates ∧
    ((∀ e ∈ c.dates, (dateKey e).isSome = true) →
      (sortCycleDates c).dates.Sorted (fun a b =>
        ∀ x y, dateKey a = some x → dateKey b = some y → x ≤ y)) := by
  refine ⟨?_, ?_, ?_, ?_⟩
  · refine ⟨{conf with installments := conf.installments.map fun i =>
      {i with cycles := i.cycles.map sortCycleDates}}, ?_,
      {inst with cycles := inst.cycles.map sortCycleDates}, ?_, ?_⟩
    · exact List.mem_map_of_mem _ hconf
    · exact List.mem_map_of_mem _ hinst
    · exact List.mem_map_of_mem _ hc
  · rw [sortCycleDates]
    split <;> rfl
  · rw [sortCycleDates]
    split
    · exact List.perm_insertionSort _ c.dates
    · exact List.Perm.refl c.dates
  · intro hall
    rw [sortCycleDates]
    split
    · show List.Sorted _ (List.insertionSort (fun a b => sortLeDates a b = true) c.dates)
      refine List.Pairwise.imp_of_mem ?_ (insertionSort_sorted_valid c.dates hall)
      intro a b ha hb hab
      intro x y hx hy
      simp only [sortLeDates, hx, hy, decide_eq_true_eq] at hab
      exact hab
    · rename_i hlen
      rcases hd : c.dates with _ | ⟨e1, _ | ⟨e2, l⟩⟩
      · simp
      · simp
      · rw [hd] at hlen
        exact absurd (by simp) hlen

/-- A cycle with its two dates out of order (2025-03-01 before 2025-01-01). -/
def w8Cycle : ReviewCycle :=
  ⟨[], [⟨['2','0','2','5','-','0','3','-','0','1'], []⟩,
        ⟨['2','0','2','5','-','0','1','-','0','1'], []⟩]⟩

/-- The installment holding `w8Cycle`. -/
def w8Inst : Installment := ⟨2025, [], [w8Cycle]⟩

/-- The conference holding `w8Inst`. -/
def w8Conf : Conference := ⟨['w'], ['W'], ['W'], [w8Inst]⟩

/-- Witness for `C8_load_sort` at the concrete one-cycle dataset. -/
theorem C8_load_sort_witness :
    (∃ conf' ∈ sortConferenceDataDates [w8Conf], ∃ inst' ∈ conf'.installments,
      sortCycleDates w8Cycle ∈ inst'.cycles) ∧
    (sortCycleDates w8Cycle).name = w8Cycle.name ∧
    (sortCycleDates w8Cycle).dates.Perm w8Cycle.dates ∧
    ((∀ e ∈ w8Cycle.dates, (dateKey e).isSome = true) →
      (sortCycleDates w8Cycle).dates.Sorted (fun a b =>
        ∀ x y, dateKey a = some x → dateKey b = some y → x ≤ y)) :=
  C8_load_sort [w8Conf] w8Conf w8Inst w8Cycle (by simp) (by simp [w8Conf]) (by simp [w8Inst])

/-- C10 (corrected).  When the range comes from the Date Range Calculator
over the same conference list (amended: with at least **two distinct** valid
event dates, so that the aliasing bug of `C4_divergence` is not triggered
and `totalTimelineDays > 0`), and a cycle's dates all parse and belong to
that list, the `Math.max(0,·)`/`Math.min(totalTimelineDays,·)` clamps in the
row packer change nothing, and the cycle's span satisfies
`0 ≤ startXPixel ≤ endXPixel ≤ totalSvgTimelineWidth` (for a non-negative
width). -/
theorem C10_clamps_noop (confs : List Conference) (t1 t2 : Int) (e1 e2 : EventDate)
    (he1 : e1 ∈ allEventDates confs) (he2 : e2 ∈ allEventDates confs)
    (hk1 : dateKey e1 = some t1) (hk2 : dateKey e2 = some t2) (hne : t1 ≠ t2)
    (W : ℚ) (hW : 0 ≤ W) (inst : Installment) (c : ReviewCycle)
    (hlen : 2 ≤ c.dates.length)
    (hsub : ∀ e ∈ c.dates, e ∈ allEventDates confs)
    (hvalid : ∀ e ∈ c.dates, (dateKey e).isSome = true) :
    ∃ a b it,
      cycleMinMax c.dates = (some a, some b) ∧
      max 0 (diffDays (calculateTimelineDateRange confs).1 a) =
        diffDays (calculateTimelineDateRange confs).1 a ∧
      min (calculateTimelineDateRange confs).2.2
          (diffDays (calculateTimelineDateRange confs).1 b) =
        diffDays (calculateTimelineDateRange confs).1 b ∧
      cycleItem (calculateTimelineDateRange confs).1 (calculateTimelineDateRange confs).2.2 W
        inst c = some it ∧
      ∃ s e : ℚ, it.startXPixel = some s ∧ it.endXPixel = some e ∧
        0 ≤ s ∧ s ≤ e ∧ e ≤ W := by
  obtain ⟨hall, hmod1, hmod2, hdd, hpos⟩ :=
    calculateTimelineDateRange_bounds confs t1 t2 e1 e2 he1 he2 hk1 hk2 hne
  obtain ⟨a, b, hmm, hab, ⟨ea, hea, hka⟩, ⟨eb, heb, hkb⟩⟩ := cycleMinMax_spec c.dates hlen hvalid
  have hpa : a % msPerDay = 0 := by
    have hpair : parseDate ea.date = (some a, (parseDate ea.date).2) := by
      rw [← hka]
      rfl
    exact (parseDate_some_props ea.date a _ hpair).1
  have hpb : b % msPerDay = 0 := by
    have hpair : parseDate eb.date = (some b, (parseDate eb.date).2) := by
      rw [← hkb]
      rfl
    exact (parseDate_some_props eb.date b _ hpair).1
  have hina := hall ea (hsub ea hea) a hka
  have hinb := hall eb (hsub eb heb) b hkb
  have hs : diffDays (calculateTimelineDateRange confs).1 a =
      a / msPerDay - (calculateTimelineDateRange confs).1 / msPerDay :=
    diffDays_midnight _ _ hmod1 hpa
  have he : diffDays (calculateTimelineDateRange confs).1 b =
      b / msPerDay - (calculateTimelineDateRange confs).1 / msPerDay :=
    diffDays_midnight _ _ hmod1 hpb
  have hspos : 0 < diffDays (calculateTimelineDateRange confs).1 a := by
    rw [hs]
    simp only [msPerDay] at hmod1 hpa ⊢
    omega
  have hsle : diffDays (calculateTimelineDateRange confs).1 a ≤
      diffDays (calculateTimelineDateRange confs).1 b := by
    rw [hs, he]
    simp only [msPerDay] at hmod1 hpa hpb ⊢
    omega
  have heD : diffDays (calculateTimelineDateRange confs).1 b ≤
      (calculateTimelineDateRange confs).2.2 := by
    rw [he, hdd]
    simp only [msPerDay] at hmod2 hpb ⊢
    omega
  have hclamp1 : max 0 (diffDays (calculateTimelineDateRange confs).1 a) =
      diffDays (calculateTimelineDateRange confs).1 a :=
    max_eq_right (le_of_lt hspos)
  have hclamp2 : min (calculateTimelineDateRange confs).2.2
      (diffDays (calculateTimelineDateRange confs).1 b) =
      diffDays (calculateTimelineDateRange confs).1 b :=
    min_eq_right heD
  have hitem : cycleItem (calculateTimelineDateRange confs).1
      (calculateTimelineDateRange confs).2.2 W inst c = some ⟨c, inst,
      some (((diffDays (calculateTimelineDateRange confs).1 a : Int) : ℚ) /
        (((calculateTimelineDateRange confs).2.2 : Int) : ℚ) * W),
      some (((diffDays (calculateTimelineDateRange confs).1 b : Int) : ℚ) /
        (((calculateTimelineDateRange confs).2.2 : Int) : ℚ) * W),
      (if c.name.isEmpty then 0 else (c.name.length : ℚ) * 8 + 15),
      some ((((diffDays (calculateTimelineDateRange confs).1 a : Int) : ℚ) /
        (((calculateTimelineDateRange confs).2.2 : Int) : ℚ) * W) -
        (if c.name.isEmpty then 0 else (c.name.length : ℚ) * 8 + 15))⟩ := by
    simp only [cycleItem, if_neg (by omega : ¬ c.dates.length < 2), hmm,
      Option.map_some', hclamp1, hclamp2]
  have hD0 : (0:ℚ) < (((calculateTimelineDateRange confs).2.2 : Int) : ℚ) := by
    exact_mod_cast hpos
  have hs0 : (0:ℚ) ≤ ((diffDays (calculateTimelineDateRange confs).1 a : Int) : ℚ) := by
    exact_mod_cast le_of_lt hspos
  have hse : ((diffDays (calculateTimelineDateRange confs).1 a : Int) : ℚ) ≤
      ((diffDays (calculateTimelineDateRange confs).1 b : Int) : ℚ) := by
    exact_mod_cast hsle
  have heD' : ((diffDays (calculateTimelineDateRange confs).1 b : Int) : ℚ) ≤
      (((calculateTimelineDateRange confs).2.2 : Int) : ℚ) := by
    exact_mod_cast heD
  refine ⟨a, b, _, hmm, hclamp1, hclamp2, hitem, _, _, rfl, rfl, ?_, ?_, ?_⟩
  · exact mul_nonneg (div_nonneg hs0 (le_of_lt hD0)) hW
  · exact mul_le_mul_of_nonneg_right ((div_le_div_right hD0).mpr hse) hW
  · calc ((diffDays (calculateTimelineDateRange confs).1 b : Int) : ℚ) /
        (((calculateTimelineDateRange confs).2.2 : Int) : ℚ) * W
        ≤ 1 * W := mul_le_mul_of_nonneg_right ((div_le_one hD0).mpr heD') hW
      _ = W := one_mul W

/-- Event date 2025-01-01 of the C10 witness dataset. -/
def w10E1 : EventDate := ⟨['2','0','2','5','-','0','1','-','0','1'], []⟩

/-- Event date 2025-03-01 of the C10 witness dataset. -/
def w10E2 : EventDate := ⟨['2','0','2','5','-','0','3','-','0','1'], []⟩

/-- The two-date cycle of the C10 witness dataset. -/
def w10Cycle : ReviewCycle := ⟨[], [w10E1, w10E2]⟩

/-- The installment holding `w10Cycle`. -/
def w10Inst : Installment := ⟨2025, [], [w10Cycle]⟩

/-- The conference holding `w10Inst`. -/
def w10Conf : Conference := ⟨['v'], ['V'], ['V'], [w10Inst]⟩

set_option maxRecDepth 16000 in
/-- Witness for `C10_clamps_noop` at the concrete one-cycle dataset with
two distinct dates and width 90. -/
theorem C10_clamps_noop_witness :
    ∃ a b it,
      cycleMinMax w10Cycle.dates = (some a, some b) ∧
      max 0 (diffDays (calculateTimelineDateRange [w10Conf]).1 a) =
        diffDays (calculateTimelineDateRange [w10Conf]).1 a ∧
      min (calculateTimelineDateRange [w10Conf]).2.2
          (diffDays (calculateTimelineDateRange [w10Conf]).1 b) =
        diffDays (calculateTimelineDateRange [w10Conf]).1 b ∧
      cycleItem (calculateTimelineDateRange [w10Conf]).1
        (calculateTimelineDateRange [w10Conf]).2.2 90 w10Inst w10Cycle = some it ∧
      ∃ s e : ℚ, it.startXPixel = some s ∧ it.endXPixel = some e ∧
        0 ≤ s ∧ s ≤ e ∧ e ≤ 90 :=
  C10_clamps_noop [w10Conf] 1735689600000 1740787200000 w10E1 w10E2
    (by decide) (by decide) (by decide) (by decide) (by decide)
    90 (by norm_num) w10Inst w10Cycle (by decide) (by decide) (by decide)

/-- A cycle whose two dates are both 2025-03-31. -/
def cx10Cycle : ReviewCycle :=
  ⟨[], [⟨['2','0','2','5','-','0','3','-','3','1'], []⟩,
        ⟨['2','0','2','5','-','0','3','-','3','1'], []⟩]⟩

/-- A dataset whose event dates are all equal (two copies of 2025-03-31). -/
def cx10Conf : Conference := ⟨['y'], ['Y'], ['Y'], [⟨2025, [], [cx10Cycle]⟩]⟩

set_option maxRecDepth 16000 in
/-- C10 counterexample: with one event date value (a two-date cycle, both
2025-03-31), the Date Range Calculator returns span 0 — not positive — and
the `Math.max(0,·)` clamp *does* change the start offset (the event lies a
day before the mutated `minDate` 2025-04-01, so the offset −1 clamps to 0),
refuting the claim for datasets without two distinct event dates. -/
theorem C10_counterexample :
    (∃ e, e ∈ allEventDates [cx10Conf]) ∧
    ¬(0 < (calculateTimelineDateRange [cx10Conf]).2.2) ∧
    cycleMinMax cx10Cycle.dates = (some 1743379200000, some 1743379200000) ∧
    max 0 (diffDays (calculateTimelineDateRange [cx10Conf]).1 1743379200000) ≠
      diffDays (calculateTimelineDateRange [cx10Conf]).1 1743379200000 := by
  have hst : rangeScan (allEventDates [cx10Conf]) = (1743379200000, 1743379200000, 2, 2) := by
    decide
  have hv4 : jsSetUTCDate (jsSetUTCMonth
      (jsSetUTCDate (jsSetUTCMonth 1743379200000 (jsGetUTCMonth 1743379200000 - 1)) 1)
      (jsGetUTCMonth (jsSetUTCDate (jsSetUTCMonth 1743379200000
        (jsGetUTCMonth 1743379200000 - 1)) 1) + 1)) 1 = 1743465600000 := by
    decide
  have hdd : diffDays 1743465600000 1743465600000 = 0 := by
    rw [diffDays_midnight _ _ (by decide) (by decide)]
    decide
  have hmain : calculateTimelineDateRange [cx10Conf] = (1743465600000, 1743465600000, 0) := by
    simp only [calculateTimelineDateRange, hst, hv4, hdd, if_true]
  have hdm : diffDays 1743465600000 1743379200000 = -1 := by
    rw [diffDays_midnight _ _ (by decide) (by decide)]
    decide
  refine ⟨⟨⟨['2','0','2','5','-','0','3','-','3','1'], []⟩, by decide⟩, ?_, by decide, ?_⟩
  · rw [hmain]
    decide
  · rw [hmain]
    show max 0 (diffDays 1743465600000 1743379200000) ≠ diffDays 1743465600000 1743379200000
    rw [hdm]
    decide
